import Mathlib

/-!
Shallow embedding of the HOPE hierarchical sequence model (Rust sources under
`src/model/`): the continuum memory bank (`continuum_mem.rs`), the
self-modification module (`self_modify.rs`), the dual-rate deep optimizer
(`optimizer.rs`) and the top-level model forward pass (`hope.rs`).

Tensors are modelled as nested lists of rationals: a `[batch, seq, hidden]`
tensor is a `List (List (List ℚ))`.  Scalar `f32` constants of the source are
modelled as exact rationals.  Operations supplied by the external burn tensor
engine that are not rational-closed (transformer encoders, softmax, layer
normalization, tanh) are modelled as abstract function-valued fields of the
module structures, following the spec's external-interface boundary (§6);
rational-closed engine primitives (elementwise arithmetic, matmul, linear
layers, embedding lookup, reshape/slice/concatenate) are modelled concretely.
-/

namespace Hope

abbrev Vec := List ℚ
abbrev Mat := List Vec
abbrev Tensor2 := List Vec
abbrev Tensor3 := List Mat

/-- Elementwise addition of vectors (burn `+` on matching shapes). -/
def vadd (x y : Vec) : Vec := List.zipWith (· + ·) x y

/-- Elementwise subtraction of vectors. -/
def vsub (x y : Vec) : Vec := List.zipWith (· - ·) x y

/-- Scalar multiplication of a vector (burn `* scalar`). -/
def vscale (x : Vec) (c : ℚ) : Vec := x.map (· * c)

/-- Dot product (zip-truncating; used only on matching lengths). -/
def dot (x y : Vec) : ℚ := (List.zipWith (· * ·) x y).sum

def t2add (x y : Tensor2) : Tensor2 := List.zipWith vadd x y
def t2scale (x : Tensor2) (c : ℚ) : Tensor2 := x.map (fun r => vscale r c)

def t3add (x y : Tensor3) : Tensor3 := List.zipWith t2add x y
def t3sub (x y : Tensor3) : Tensor3 :=
  List.zipWith (fun a b => List.zipWith vsub a b) x y
def t3scale (x : Tensor3) (c : ℚ) : Tensor3 := x.map (fun m => t2scale m c)

/-- Source `Tensor.zeros [a, b]`. -/
def zeros2 (a b : Nat) : Tensor2 := List.replicate a (List.replicate b (0 : ℚ))

/-- Source `Tensor.zeros [a, b, c]`. -/
def zeros3 (a b c : Nat) : Tensor3 := List.replicate a (zeros2 b c)

/-- Source `t.dims()[0]` of a 3-d tensor. -/
def t3dim0 (t : Tensor3) : Nat := t.length

/-- Source `t.dims()[1]` of a 3-d tensor. -/
def t3dim1 (t : Tensor3) : Nat := (t.headD []).length

/-- Source `t.dims()[2]` of a 3-d tensor. -/
def t3dim2 (t : Tensor3) : Nat := ((t.headD []).headD []).length

/-- The tensor has shape `[b, s, h]` (rectangular). -/
def hasShape3 (t : Tensor3) (b s h : Nat) : Prop :=
  t.length = b ∧ ∀ m ∈ t, m.length = s ∧ ∀ r ∈ m, r.length = h

instance (t : Tensor3) (b s h : Nat) : Decidable (hasShape3 t b s h) := by
  unfold hasShape3; infer_instance

/-- The 2-d tensor has shape `[b, d]`. -/
def hasShape2 (t : Tensor2) (b d : Nat) : Prop :=
  t.length = b ∧ ∀ r ∈ t, r.length = d

instance (t : Tensor2) (b d : Nat) : Decidable (hasShape2 t b d) := by
  unfold hasShape2; infer_instance

/-! ## `config.rs` — configuration structures (fields used by the model core) -/

/-- Source `ContinuumMemConfig` from `config.rs`. -/
structure ContinuumMemConfig where
  enabled : Bool
  ultra_short_span : Nat
  short_span : Nat
  mid_span : Nat
  long_span : Nat
  episodic_span : Nat
deriving Repr, DecidableEq

/-- Source `SelfModifyConfig` from `config.rs` (`meta_lr : f32` modelled as ℚ). -/
structure SelfModifyConfig where
  enabled : Bool
  meta_lr : ℚ
  update_frequency : Nat
  weight_mod_dim : Nat
deriving Repr, DecidableEq

/-- Source `DeepOptimizerConfig` from `config.rs`. -/
structure DeepOptimizerConfig where
  enabled : Bool
  fast_lr_scale : ℚ
  slow_lr_scale : ℚ
  fast_ema : ℚ
  slow_ema : ℚ
  sync_interval : Nat
  gradient_compression_dim : Nat
deriving Repr, DecidableEq

/-! ## `optimizer.rs` — dual-rate deep optimizer -/

/-- Source `DeepOptimizerState` from `optimizer.rs`. -/
structure DeepOptimizerState where
  fast_params : List Tensor3
  slow_params : List Tensor3
  fast_ema : List Tensor3
  slow_ema : List Tensor3
  step_count : Nat
deriving Repr, DecidableEq

namespace DeepOptimizer

/-- Source `DeepOptimizer::init_state`. -/
def init_state (num_levels batch seq_len hidden_size : Nat) : DeepOptimizerState :=
  { fast_params := List.replicate num_levels (zeros3 batch seq_len hidden_size)
    slow_params := List.replicate num_levels (zeros3 batch seq_len hidden_size)
    fast_ema := List.replicate num_levels (zeros3 batch seq_len hidden_size)
    slow_ema := List.replicate num_levels (zeros3 batch seq_len hidden_size)
    step_count := 0 }

/-- Body of the `for (level_idx, grad) in gradients.iter().enumerate()` loop of
`DeepOptimizer::update_fast_params`: walks the gradient list with the running
index, skipping indices at or beyond `fast_params.len()`, and otherwise setting
`fast_params[i] -= grad * fast_lr` then
`fast_ema[i] = fast_ema[i]*(1-α) + fast_params[i]*α` (reading the freshly
written `fast_params[i]`). -/
def ufpLoop (fast_lr ema_alpha : ℚ) :
    List Tensor3 → Nat → List Tensor3 × List Tensor3 → List Tensor3 × List Tensor3
  | [], _, fpfe => fpfe
  | grad :: rest, i, (fp, fe) =>
    if fp.length ≤ i then
      ufpLoop fast_lr ema_alpha rest (i + 1) (fp, fe)
    else
      let fp' := fp.set i (t3sub (fp.getD i []) (t3scale grad fast_lr))
      let fe' := fe.set i (t3add (t3scale (fe.getD i []) (1 - ema_alpha))
        (t3scale (fp'.getD i []) ema_alpha))
      ufpLoop fast_lr ema_alpha rest (i + 1) (fp', fe')

/-- Source `DeepOptimizer::update_fast_params`. -/
def update_fast_params (cfg : DeepOptimizerConfig) (state : DeepOptimizerState)
    (gradients : List Tensor3) (learning_rate : ℚ) : DeepOptimizerState :=
  if !cfg.enabled then state
  else
    let fast_lr := learning_rate * cfg.fast_lr_scale
    let r := ufpLoop fast_lr cfg.fast_ema gradients 0
      (state.fast_params, state.fast_ema)
    { state with fast_params := r.1, fast_ema := r.2,
                 step_count := state.step_count + 1 }

/-- Body of the `for level_idx in 0..state.slow_params.len()` loop of
`DeepOptimizer::update_slow_params`: `k` is the number of remaining
iterations, `i` the running index. -/
def uspLoop (slow_lr ema_alpha : ℚ) (fastEma : List Tensor3) :
    Nat → Nat → List Tensor3 × List Tensor3 → List Tensor3 × List Tensor3
  | 0, _, spse => spse
  | k + 1, i, (sp, se) =>
    let diff := t3sub (fastEma.getD i []) (sp.getD i [])
    let sp' := sp.set i (t3add (sp.getD i []) (t3scale diff slow_lr))
    let se' := se.set i (t3add (t3scale (se.getD i []) (1 - ema_alpha))
      (t3scale (sp'.getD i []) ema_alpha))
    uspLoop slow_lr ema_alpha fastEma k (i + 1) (sp', se')

/-- Source `DeepOptimizer::update_slow_params`. -/
def update_slow_params (cfg : DeepOptimizerConfig) (state : DeepOptimizerState)
    (learning_rate : ℚ) : DeepOptimizerState :=
  if !cfg.enabled then state
  else
    let slow_lr := learning_rate * cfg.slow_lr_scale
    let r := uspLoop slow_lr cfg.slow_ema state.fast_ema
      state.slow_params.length 0 (state.slow_params, state.slow_ema)
    { state with slow_params := r.1, slow_ema := r.2 }

/-- Source `DeepOptimizer::compress_gradient`.  `sum_dim(1)` sums the sequence rows
of each batch matrix, `div_scalar(seq_len)` divides by the sequence length,
and the final `slice` keeps the first `min(gradient_compression_dim, hidden)`
columns. -/
def compress_gradient (cfg : DeepOptimizerConfig) (gradient : Tensor3) : Tensor2 :=
  if !cfg.enabled then zeros2 (t3dim0 gradient) cfg.gradient_compression_dim
  else
    let seq_len := t3dim1 gradient
    let hidden := t3dim2 gradient
    let grad_avg : Tensor2 :=
      gradient.map (fun m => vscale (m.foldr vadd (List.replicate hidden (0 : ℚ)))
        (1 / (seq_len : ℚ)))
    let compress_dim := min cfg.gradient_compression_dim hidden
    grad_avg.map (fun r => r.take compress_dim)

/-- Source `DeepOptimizer::should_sync`. -/
def should_sync (cfg : DeepOptimizerConfig) (state : DeepOptimizerState) : Bool :=
  cfg.enabled && (state.step_count % cfg.sync_interval == 0)

/-- Source `DeepOptimizer::sync`: overwrite `slow_params[ℓ] ← fast_ema[ℓ]`.  The
source loop writes index `ℓ` of `slow_params` with `fast_ema[ℓ]` for
`ℓ = 0..slow_params.len()`. -/
def syncLoop (fastEma : List Tensor3) :
    Nat → Nat → List Tensor3 → List Tensor3
  | 0, _, sp => sp
  | k + 1, i, sp => syncLoop fastEma k (i + 1) (sp.set i (fastEma.getD i []))

/-- Source `DeepOptimizer::sync`. -/
def sync (cfg : DeepOptimizerConfig) (state : DeepOptimizerState) : DeepOptimizerState :=
  if !cfg.enabled then state
  else { state with
           slow_params := syncLoop state.fast_ema state.slow_params.length 0
             state.slow_params }

end DeepOptimizer

/-! ## Engine primitives used by the modules below -/

/-- A burn `Linear` layer: `weight` has one row per input feature, each of
output width; `forwardRow x` computes `x · W + b`, whose `j`-th entry is
`Σᵢ xᵢ * W[i][j] + b[j]`.  The output length is always `bias.length`. -/
structure Linear where
  weight : List Vec
  bias : Vec
deriving Repr, DecidableEq

/-- Source `Linear::forward` on one row. -/
def Linear.forwardRow (l : Linear) (x : Vec) : Vec :=
  (List.range l.bias.length).map (fun j =>
    (List.zipWith (fun xi wrow => xi * wrow.getD j 0) x l.weight).sum + l.bias.getD j 0)

/-- Source `Linear::forward` on a 2-d tensor (row-wise). -/
def Linear.forward2 (l : Linear) (t : Tensor2) : Tensor2 := t.map l.forwardRow

/-- Source `relu` applied elementwise (`activation::relu`; exact on rationals). -/
def reluVec (x : Vec) : Vec := x.map (fun a => max a 0)

/-- Source `A ⬝ Bᵀ` on matrices (used for `matmul` with `swap_dims(1,2)`). -/
def matmulT (a b : Mat) : Mat := a.map (fun ar => b.map (fun br => dot ar br))

/-- Transpose of a matrix with a declared column count. -/
def transposeW (m : Mat) (cols : Nat) : Mat :=
  (List.range cols).map (fun j => m.map (fun r => r.getD j 0))

/-- Reshape `[b*s, h] → [b, s, h]`: chunk the flat row list into `b` groups
of `s` rows. -/
def chunkRows (b s : Nat) (flat : Tensor2) : Tensor3 :=
  (List.range b).map (fun i => (flat.drop (i * s)).take s)

/-- Source `Tensor::cat(ts, 1)`: concatenate 3-d tensors along the sequence axis. -/
def cat1 : List Tensor3 → Tensor3
  | [] => []
  | t :: rest => rest.foldl (fun acc u => List.zipWith (· ++ ·) acc u) t

/-! ## `continuum_mem.rs` — multi-span exponential memory bank -/

/-- Source `ContinuumMemoryState` from `continuum_mem.rs`. -/
structure ContinuumMemoryState where
  ultra_short : Tensor3
  short : Tensor3
  mid : Tensor3
  long : Tensor3
  episodic : Tensor3
deriving Repr, DecidableEq

/-- Source `ContinuumMemory` module: the config, the three projections and the
normalization layer.  `norm` (burn `LayerNorm`, which divides by a standard
deviation) and `softmax` are external-engine functions, modelled as abstract
row-wise functions; `scale` is the engine value of `1/sqrt(hidden)`. -/
structure ContinuumMemory where
  config : ContinuumMemConfig
  query_proj : Linear
  key_proj : Linear
  value_proj : Linear
  norm : Vec → Vec
  softmax : Vec → Vec
  scale : ℚ

namespace ContinuumMemory

/-- Source `ContinuumMemory::init_state`. -/
def init_state (batch seq_len hidden_size : Nat) : ContinuumMemoryState :=
  { ultra_short := zeros3 batch seq_len hidden_size
    short := zeros3 batch seq_len hidden_size
    mid := zeros3 batch seq_len hidden_size
    long := zeros3 batch seq_len hidden_size
    episodic := zeros3 batch seq_len hidden_size }

/-- Source `ContinuumMemory::compute_alpha`. -/
def compute_alpha (span : Nat) : ℚ :=
  if span = 0 then 1 else min (max (1 / (span : ℚ)) 0) 1

/-- Source `ContinuumMemory::ema_update`: `old*(1-α) + new*α`. -/
def ema_update (old new : Tensor3) (alpha : ℚ) : Tensor3 :=
  t3add (t3scale old (1 - alpha)) (t3scale new alpha)

/-- Source `ContinuumMemory::update`. -/
def update (m : ContinuumMemory) (state : ContinuumMemoryState)
    (new_hidden : Tensor3) : ContinuumMemoryState :=
  if !m.config.enabled then state
  else
    { ultra_short := new_hidden
      short := ema_update state.short new_hidden (compute_alpha m.config.short_span)
      mid := ema_update state.mid new_hidden (compute_alpha m.config.mid_span)
      long := ema_update state.long new_hidden (compute_alpha m.config.long_span)
      episodic := ema_update state.episodic new_hidden
        (compute_alpha m.config.episodic_span) }

/-- Source `ContinuumMemory::retrieve`.  The reshape-to-2d / linear / reshape-back
pattern of the source acts row-wise, so projections are applied per row; the
five banks' keys and values are concatenated along the sequence axis
(`Tensor::cat(_, 1)`), scores are `Q ⬝ Kᵀ * (1/sqrt(hidden))`, softmaxed over
the concatenated memory axis, applied to values, and added to the original
query as a residual. -/
def retrieve (m : ContinuumMemory) (state : ContinuumMemoryState)
    (query : Tensor3) : Tensor3 :=
  if !m.config.enabled then query
  else
    let hidden := t3dim2 query
    let queryP : Tensor3 :=
      query.map (fun mat => mat.map (fun r => m.norm (m.query_proj.forwardRow r)))
    let memories := [state.ultra_short, state.short, state.mid, state.long,
      state.episodic]
    let keys : Tensor3 :=
      cat1 (memories.map (fun mem => mem.map (fun mat => mat.map m.key_proj.forwardRow)))
    let values : Tensor3 :=
      cat1 (memories.map (fun mem => mem.map (fun mat => mat.map m.value_proj.forwardRow)))
    let scores : Tensor3 := List.zipWith (fun q k =>
      (matmulT q k).map (fun r => vscale r m.scale)) queryP keys
    let attnW : Tensor3 := scores.map (fun mat => mat.map m.softmax)
    let attended : Tensor3 := List.zipWith (fun w v =>
      matmulT w (transposeW v hidden)) attnW values
    t3add query attended

end ContinuumMemory

/-! ## `self_modify.rs` — self-modification module -/

/-- Source `SelfModifyState` from `self_modify.rs`. -/
structure SelfModifyState where
  meta_state : Tensor2
  update_count : Nat
deriving Repr, DecidableEq

/-- Source `MetaNetwork` from `self_modify.rs`. -/
structure MetaNetwork where
  layer1 : Linear
  layer2 : Linear
  layer3 : Linear
deriving Repr, DecidableEq

/-- Source `WeightModNetwork` from `self_modify.rs`. -/
structure WeightModNetwork where
  input_proj : Linear
  hidden : Linear
  output_proj : Linear
deriving Repr, DecidableEq

/-- Source `SelfModifyModule`: config, the two sub-networks, the normalization
layer and the engine's scalar `tanh` (abstract, applied elementwise by
`activation::tanh`).  The gradient compressor and dropout fields of the source
are not used by the functions modelled here. -/
structure SelfModifyModule where
  config : SelfModifyConfig
  meta_network : MetaNetwork
  weight_mod_network : WeightModNetwork
  norm : Vec → Vec
  tanh : ℚ → ℚ

namespace SelfModifyModule

/-- Source `SelfModifyModule::init_state`. -/
def init_state (sm : SelfModifyModule) (batch : Nat) : SelfModifyState :=
  { meta_state := zeros2 batch sm.config.weight_mod_dim, update_count := 0 }

/-- Source `SelfModifyModule::compute_update_rule`.  The source slices
`hidden[0..batch, 0..1, 0..hidden_size]` and reshapes to `[batch, hidden]`
(`(m.take 1).flatten` per batch matrix), runs the 3-layer meta network with
ReLU, ReLU, tanh, and blends `meta_state*0.9 + update_rule*0.1`. -/
def compute_update_rule (sm : SelfModifyModule) (hidden : Tensor3)
    (state : SelfModifyState) : Tensor2 :=
  if !sm.config.enabled then zeros2 (t3dim0 hidden) sm.config.weight_mod_dim
  else
    let meta_input : Tensor2 := hidden.map (fun m => (m.take 1).flatten)
    let x := sm.meta_network.layer1.forward2 meta_input
    let x := x.map reluVec
    let x := sm.meta_network.layer2.forward2 x
    let x := x.map reluVec
    let x := sm.meta_network.layer3.forward2 x
    let update_rule := x.map (fun r => r.map sm.tanh)
    t2add (t2scale state.meta_state (9 / 10)) (t2scale update_rule (1 / 10))

/-- Source `SelfModifyModule::apply_weight_modification`.  The source flattens
`hidden` to `[batch*seq, hidden]`, projects + ReLU, adds the per-batch
meta-state broadcast along the sequence axis, projects through the hidden
layer + ReLU and back to hidden width, reshapes to `[batch, seq, hidden]`,
adds `0.1` times the result to `hidden` as a residual, and normalizes. -/
def apply_weight_modification (sm : SelfModifyModule) (hidden : Tensor3)
    (meta_state : Tensor2) : Tensor3 :=
  if !sm.config.enabled then hidden
  else
    let batch := t3dim0 hidden
    let seq_len := t3dim1 hidden
    let hidden_flat : Tensor2 := hidden.flatten
    let x := hidden_flat.map (fun r => reluVec (sm.weight_mod_network.input_proj.forwardRow r))
    let meta_expanded : Tensor2 :=
      (meta_state.map (fun r => List.replicate seq_len r)).flatten
    let x := t2add x meta_expanded
    let x := x.map (fun r => reluVec (sm.weight_mod_network.hidden.forwardRow r))
    let weight_mod_flat := x.map sm.weight_mod_network.output_proj.forwardRow
    let weight_mod := chunkRows batch seq_len weight_mod_flat
    let modified := t3add hidden (t3scale weight_mod (1 / 10))
    modified.map (fun m => m.map sm.norm)

end SelfModifyModule

/-! ## `hope.rs` — top-level HOPE model -/

/-- Source `HopeConfig` from `config.rs` (`f32`/`f64` fields as ℚ). -/
structure HopeConfig where
  hidden_size : Nat
  vocab_size : Nat
  seq_len : Nat
  num_heads : Nat
  num_layers : Nat
  ff_multiplier : ℚ
  dropout : ℚ
  num_levels : Nat
  level_timescales : List Nat
  continuum_mem : ContinuumMemConfig
  self_modify : SelfModifyConfig
  deep_optimizer : DeepOptimizerConfig

/-- Source `HopeCarry` from `hope.rs`. -/
structure HopeCarry where
  level_states : List Tensor3
  continuum_memory : Option ContinuumMemoryState
  self_modify : Option SelfModifyState
  step_count : Nat

/-- Source `HopeOutput` from `hope.rs`. -/
structure HopeOutput where
  logits : Tensor3
  hidden_states : Tensor3

/-- Source `HopeModel` from `hope.rs`: embedding tables are concrete weight lists
(one row per vocabulary id / position); the per-level transformer encoders
(burn `TransformerEncoder`) are external-engine functions, modelled
abstractly; `embed_scale` is the engine value of `1/sqrt(hidden_size)`.
`continuum_memory` / `self_modify` are `some` iff the respective config is
enabled (constructor invariant). -/
structure HopeModel where
  config : HopeConfig
  token_embed : List Vec
  pos_embed : List Vec
  level_encoders : List (Tensor3 → Tensor3)
  continuum_memory : Option ContinuumMemory
  self_modify : Option SelfModifyModule
  head : Linear
  embed_scale : ℚ

namespace HopeModel

/-- Source `HopeModel::initial_carry`. -/
def initial_carry (m : HopeModel) (batch : Nat) : HopeCarry :=
  { level_states := List.replicate m.config.num_levels
      (zeros3 batch m.config.seq_len m.config.hidden_size)
    continuum_memory := m.continuum_memory.map (fun _ =>
      ContinuumMemory.init_state batch m.config.seq_len m.config.hidden_size)
    self_modify := m.self_modify.map (fun sm => sm.init_state batch)
    step_count := 0 }

/-- One level's inner `for _ in 0..*timescale` loop of `HopeModel::forward`:
`level_input = level_state + prev_level_output`, transformer encoding, then
self-modification when both the module and the carried state are present
(compute the update rule, store it with `update_count + 1`, apply the weight
modification); `prev_level_output` is fixed for the whole inner loop.  The
final `List Nat` records, for claim-level inspection, the level index of each
encoder evaluation in order. -/
def innerLoopT (sm? : Option SelfModifyModule) (encoder : Tensor3 → Tensor3)
    (levelIdx : Nat) :
    Nat → Tensor3 → Tensor3 → Option SelfModifyState → List Nat →
    Tensor3 × Option SelfModifyState × List Nat
  | 0, levelState, _, smState, trace => (levelState, smState, trace)
  | t + 1, levelState, prevOut, smState, trace =>
    let levelInput := t3add levelState prevOut
    let encoded := encoder levelInput
    let (modified, smState') :=
      match sm?, smState with
      | some sm, some st =>
        let meta := sm.compute_update_rule encoded st
        let st' : SelfModifyState :=
          { meta_state := meta, update_count := st.update_count + 1 }
        (sm.apply_weight_modification encoded st'.meta_state, some st')
      | _, _ => (encoded, smState)
    innerLoopT sm? encoder levelIdx t modified prevOut smState'
      (trace ++ [levelIdx])

/-- The outer `for (level_idx, (encoder, timescale))` loop of
`HopeModel::forward` over `level_encoders.zip(level_timescales)`: reads
`carry.level_states[level_idx]`, runs the inner loop, writes the result back
and passes it on as `prev_level_output`. -/
def levelLoopT (sm? : Option SelfModifyModule) :
    List ((Tensor3 → Tensor3) × Nat) → Nat → List Tensor3 → Tensor3 →
    Option SelfModifyState → List Nat →
    List Tensor3 × Tensor3 × Option SelfModifyState × List Nat
  | [], _, levelStates, prevOut, smState, trace =>
    (levelStates, prevOut, smState, trace)
  | (encoder, timescale) :: rest, levelIdx, levelStates, prevOut, smState, trace =>
    let levelState := levelStates.getD levelIdx []
    let r := innerLoopT sm? encoder levelIdx timescale levelState prevOut smState trace
    levelLoopT sm? rest (levelIdx + 1) (levelStates.set levelIdx r.1) r.1
      r.2.1 r.2.2

/-- Source `HopeModel::forward`, instrumented with the encoder-evaluation trace. -/
def forwardT (m : HopeModel) (tokens : List (List Nat)) (carry : HopeCarry) :
    (HopeCarry × HopeOutput) × List Nat :=
  let batch := tokens.length
  let seq_len := (tokens.headD []).length
  let token_embeds : Tensor3 :=
    tokens.map (fun row => row.map (fun t =>
      vscale (m.token_embed.getD t []) m.embed_scale))
  let pos_rows : Mat := (List.range seq_len).map (fun p => m.pos_embed.getD p [])
  let pos_embeds : Tensor3 := List.replicate batch pos_rows
  let hidden0 := t3add token_embeds pos_embeds
  let hidden :=
    match m.continuum_memory, carry.continuum_memory with
    | some mem, some mem_state => mem.retrieve mem_state hidden0
    | _, _ => hidden0
  let r := levelLoopT m.self_modify (m.level_encoders.zip m.config.level_timescales)
    0 carry.level_states hidden carry.self_modify []
  let levelStates' := r.1
  let prevOut := r.2.1
  let smState' := r.2.2.1
  let trace := r.2.2.2
  let memState' :=
    match m.continuum_memory, carry.continuum_memory with
    | some mem, some mem_state => some (mem.update mem_state prevOut)
    | _, ms => ms
  let logits := prevOut.map m.head.forward2
  (({ level_states := levelStates'
      continuum_memory := memState'
      self_modify := smState'
      step_count := carry.step_count + 1 },
    { logits := logits, hidden_states := prevOut }), trace)

/-- Source `HopeModel::forward`. -/
def forward (m : HopeModel) (tokens : List (List Nat)) (carry : HopeCarry) :
    HopeCarry × HopeOutput :=
  (forwardT m tokens carry).1

/-- The level index of each encoder evaluation performed by one forward
call, in evaluation order. -/
def forwardTrace (m : HopeModel) (tokens : List (List Nat)) (carry : HopeCarry) :
    List Nat :=
  (forwardT m tokens carry).2

end HopeModel

/-! ## Helper lemmas -/

theorem getD_set_self {α : Type} {l : List α} {i : Nat} {x d : α} (h : i < l.length) :
    (l.set i x).getD i d = x := by
  simp [List.getD_eq_getElem?_getD, List.getElem?_set_self h]

theorem getD_set_ne {α : Type} {l : List α} {i j : Nat} (h : i ≠ j) {x d : α} :
    (l.set i x).getD j d = l.getD j d := by
  simp [List.getD_eq_getElem?_getD, List.getElem?_set_ne h]

theorem getD_map_lt {α β : Type} {f : α → β} {l : List α} {i : Nat} {d : α} {d' : β}
    (h : i < l.length) : (l.map f).getD i d' = f (l.getD i d) := by
  simp [List.getD_eq_getElem?_getD, List.getElem?_eq_getElem h,
    List.getElem?_map, List.getD_eq_getElem l d h]

/-! ## Claim C5 — `should_sync` -/

/-- C5: for every `DualRateOptimizer` config and state, `should_sync` is true
exactly when the optimizer is enabled and the step count is a multiple of
`sync_interval`; in particular it is false whenever the optimizer is
disabled. -/
theorem should_sync_iff_dvd (cfg : DeepOptimizerConfig) (st : DeepOptimizerState) :
    DeepOptimizer.should_sync cfg st = true ↔
      cfg.enabled = true ∧ cfg.sync_interval ∣ st.step_count := by
  unfold DeepOptimizer.should_sync
  rw [Bool.and_eq_true, beq_iff_eq]
  exact and_congr Iff.rfl Nat.dvd_iff_mod_eq_zero.symm

/-! ## Claim C9 — `compute_alpha` totality and bounds -/

/-- C9: `compute_alpha` is total and bounded: for every span it lies in
`[0, 1]`, with `span = 0` yielding `1` (no division by zero) and `span = 1`
yielding exactly `1`; consequently each `ema_update` blend
`bank*(1-α) + new*α` is a convex combination, elementwise bounded between the
old and new values. -/
theorem compute_alpha_bounds (span : Nat) :
    0 ≤ ContinuumMemory.compute_alpha span ∧
    ContinuumMemory.compute_alpha span ≤ 1 ∧
    ContinuumMemory.compute_alpha 0 = 1 ∧
    ContinuumMemory.compute_alpha 1 = 1 ∧
    (∀ o n : ℚ, ContinuumMemory.ema_update [[[o]]] [[[n]]]
        (ContinuumMemory.compute_alpha span) =
      [[[o * (1 - ContinuumMemory.compute_alpha span) +
          n * ContinuumMemory.compute_alpha span]]]) ∧
    (∀ o n : ℚ,
      min o n ≤ o * (1 - ContinuumMemory.compute_alpha span) +
          n * ContinuumMemory.compute_alpha span ∧
      o * (1 - ContinuumMemory.compute_alpha span) +
          n * ContinuumMemory.compute_alpha span ≤ max o n) := by
  have h0 : 0 ≤ ContinuumMemory.compute_alpha span := by
    unfold ContinuumMemory.compute_alpha
    split
    · norm_num
    · exact le_min (le_max_right _ _) (by norm_num)
  have h1 : ContinuumMemory.compute_alpha span ≤ 1 := by
    unfold ContinuumMemory.compute_alpha
    split
    · norm_num
    · exact min_le_right _ _
  refine ⟨h0, h1, by norm_num [ContinuumMemory.compute_alpha],
    by norm_num [ContinuumMemory.compute_alpha], ?_, ?_⟩
  · intro o n
    simp [ContinuumMemory.ema_update, t3add, t3scale, t2add, t2scale, vadd, vscale,
      mul_comm]
  · intro o n
    set a := ContinuumMemory.compute_alpha span with ha
    constructor
    · nlinarith [mul_nonneg (sub_nonneg.mpr h1) (sub_nonneg.mpr (min_le_left o n)),
        mul_nonneg h0 (sub_nonneg.mpr (min_le_right o n))]
    · nlinarith [mul_nonneg (sub_nonneg.mpr h1) (sub_nonneg.mpr (le_max_left o n)),
        mul_nonneg h0 (sub_nonneg.mpr (le_max_right o n))]

/-! ## Claim C6 — disabled sub-modules are exact no-ops -/

/-- C6: when disabled, each sub-module is an exact identity/zero no-op:
memory `retrieve` returns the query and `update` leaves the state unchanged;
self-modification's `apply_weight_modification` returns the hidden input and
`compute_update_rule` returns an all-zeros `[batch, weight_mod_dim]` tensor;
the dual-rate optimizer's `update_fast_params`, `update_slow_params` and
`sync` leave the state unchanged.  All the modelled functions are total, so
none raises. -/
theorem disabled_modules_noop (cm : ContinuumMemory) (sm : SelfModifyModule)
    (ocfg : DeepOptimizerConfig) (mst : ContinuumMemoryState)
    (q nh hid : Tensor3) (sst : SelfModifyState) (ms : Tensor2)
    (ost : DeepOptimizerState) (gs : List Tensor3) (lr lr' : ℚ)
    (h1 : cm.config.enabled = false) (h2 : sm.config.enabled = false)
    (h3 : ocfg.enabled = false) :
    cm.retrieve mst q = q ∧
    cm.update mst nh = mst ∧
    sm.compute_update_rule hid sst = zeros2 (t3dim0 hid) sm.config.weight_mod_dim ∧
    sm.apply_weight_modification hid ms = hid ∧
    DeepOptimizer.update_fast_params ocfg ost gs lr = ost ∧
    DeepOptimizer.update_slow_params ocfg ost lr' = ost ∧
    DeepOptimizer.sync ocfg ost = ost := by
  refine ⟨?_, ?_, ?_, ?_, ?_, ?_, ?_⟩
  · simp [ContinuumMemory.retrieve, h1]
  · simp [ContinuumMemory.update, h1]
  · simp [SelfModifyModule.compute_update_rule, h2]
  · simp [SelfModifyModule.apply_weight_modification, h2]
  · simp [DeepOptimizer.update_fast_params, h3]
  · simp [DeepOptimizer.update_slow_params, h3]
  · simp [DeepOptimizer.sync, h3]

/-- A disabled `ContinuumMemConfig` (the default spans with `enabled=false`). -/
def cmCfgOff : ContinuumMemConfig :=
  { enabled := false, ultra_short_span := 2, short_span := 8, mid_span := 32,
    long_span := 128, episodic_span := 512 }

/-- A `ContinuumMemory` module with disabled config and trivial engine parts. -/
def cmOff : ContinuumMemory :=
  { config := cmCfgOff, query_proj := ⟨[], []⟩, key_proj := ⟨[], []⟩,
    value_proj := ⟨[], []⟩, norm := id, softmax := id, scale := 1 }

/-- A disabled `SelfModifyConfig` (the default values with `enabled=false`). -/
def smCfgOff : SelfModifyConfig :=
  { enabled := false, meta_lr := 1/100000, update_frequency := 8,
    weight_mod_dim := 2 }

/-- A `SelfModifyModule` with disabled config and trivial engine parts. -/
def smOff : SelfModifyModule :=
  { config := smCfgOff, meta_network := ⟨⟨[], []⟩, ⟨[], []⟩, ⟨[], []⟩⟩,
    weight_mod_network := ⟨⟨[], []⟩, ⟨[], []⟩, ⟨[], []⟩⟩, norm := id, tanh := id }

/-- A disabled `DeepOptimizerConfig` (the default values with `enabled=false`). -/
def optCfgOff : DeepOptimizerConfig :=
  { enabled := false, fast_lr_scale := 1, slow_lr_scale := 1/10,
    fast_ema := 9/10, slow_ema := 99/100, sync_interval := 64,
    gradient_compression_dim := 256 }

/-- Witness for C6 at a concrete disabled configuration. -/
theorem disabled_modules_noop_witness :
    cmOff.retrieve (ContinuumMemory.init_state 1 1 1) [[[5]]] = [[[5]]] ∧
    smOff.apply_weight_modification [[[7]]] [[0, 0]] = [[[7]]] ∧
    DeepOptimizer.update_fast_params optCfgOff
      (DeepOptimizer.init_state 1 1 1 1) [[[[3]]]] 1 =
      DeepOptimizer.init_state 1 1 1 1 := by
  have h := disabled_modules_noop cmOff smOff optCfgOff
    (ContinuumMemory.init_state 1 1 1) [[[5]]] [[[5]]] [[[7]]]
    ⟨[[0, 0]], 0⟩ [[0, 0]] (DeepOptimizer.init_state 1 1 1 1) [[[[3]]]] 1 1
    rfl rfl rfl
  exact ⟨h.1, h.2.2.2.1, h.2.2.2.2.1⟩

/-! ## Claim C3 — memory `update` semantics -/

/-- The spec's EMA coefficient: `alpha = clamp(1/span, 0, 1)`. -/
def clampAlpha (span : Nat) : ℚ := min (max (1 / (span : ℚ)) 0) 1

/-- C3: for every enabled memory and every `new_hidden`, `update` overwrites
`ultra_short` with `new_hidden` exactly, and sets each of `short`, `mid`,
`long`, `episodic` to `bank*(1-α) + new_hidden*α` with
`α = clamp(1/span, 0, 1)` for the bank's span (spans are positive on an
enabled validated config). -/
theorem memory_update_ema (m : ContinuumMemory) (st : ContinuumMemoryState)
    (nh : Tensor3) (hen : m.config.enabled = true)
    (hs : 1 ≤ m.config.short_span) (hm : 1 ≤ m.config.mid_span)
    (hl : 1 ≤ m.config.long_span) (he : 1 ≤ m.config.episodic_span) :
    (m.update st nh).ultra_short = nh ∧
    (m.update st nh).short =
      t3add (t3scale st.short (1 - clampAlpha m.config.short_span))
        (t3scale nh (clampAlpha m.config.short_span)) ∧
    (m.update st nh).mid =
      t3add (t3scale st.mid (1 - clampAlpha m.config.mid_span))
        (t3scale nh (clampAlpha m.config.mid_span)) ∧
    (m.update st nh).long =
      t3add (t3scale st.long (1 - clampAlpha m.config.long_span))
        (t3scale nh (clampAlpha m.config.long_span)) ∧
    (m.update st nh).episodic =
      t3add (t3scale st.episodic (1 - clampAlpha m.config.episodic_span))
        (t3scale nh (clampAlpha m.config.episodic_span)) := by
  have key : ∀ span : Nat, 1 ≤ span →
      ContinuumMemory.compute_alpha span = clampAlpha span := by
    intro span h
    unfold ContinuumMemory.compute_alpha clampAlpha
    rw [if_neg (by omega)]
  unfold ContinuumMemory.update ContinuumMemory.ema_update
  simp [hen, key _ hs, key _ hm, key _ hl, key _ he]

/-- The enabled default memory config (spans `[2,8,32,128,512]`). -/
def cmCfgOn : ContinuumMemConfig :=
  { enabled := true, ultra_short_span := 2, short_span := 8, mid_span := 32,
    long_span := 128, episodic_span := 512 }

/-- The enabled memory module with trivial engine parts. -/
def cmOn : ContinuumMemory :=
  { cmOff with config := cmCfgOn }

/-- Witness for C3: spans `[2,8,32,128,512]`, zero-initialized state, one
update with a non-zero `new_hidden`: `ultra_short` equals `new_hidden`
exactly, and `episodic` equals `new_hidden` scaled by `α = 1/512`. -/
theorem memory_update_ema_witness :
    (cmOn.update (ContinuumMemory.init_state 1 1 1) [[[1]]]).ultra_short = [[[1]]] ∧
    (cmOn.update (ContinuumMemory.init_state 1 1 1) [[[1]]]).episodic =
      t3scale [[[1]]] (1/512) := by
  have h := memory_update_ema cmOn (ContinuumMemory.init_state 1 1 1) [[[1]]]
    rfl (by decide) (by decide) (by decide) (by decide)
  have hca : clampAlpha cmOn.config.episodic_span = 1/512 := by
    show clampAlpha 512 = 1/512
    unfold clampAlpha
    rw [max_eq_left (by norm_num), min_eq_left (by norm_num)]
    norm_num
  refine ⟨h.1, ?_⟩
  rw [h.2.2.2.2, hca]
  simp [ContinuumMemory.init_state, zeros3, zeros2, t3add, t3scale, t2add,
    t2scale, vadd, vscale]

/-! ## Claim C4 — `compute_update_rule` semantics -/

/-- The 3-layer meta network of the spec: ReLU, ReLU, tanh
(`tanh(L3(relu(L2(relu(L1 x)))))`, applied row-wise). -/
def metaNetForward (net : MetaNetwork) (tanh : ℚ → ℚ) (x : Tensor2) : Tensor2 :=
  (net.layer3.forward2
    ((net.layer2.forward2 ((net.layer1.forward2 x).map reluVec)).map reluVec)).map
    (fun r => r.map tanh)

/-- C4: for every enabled self-modify unit, `compute_update_rule` equals
`0.9*meta_state + 0.1*tanh(L3(relu(L2(relu(L1(hidden[:, 0, :]))))))` — it
reads only the sequence-position-0 slice of `hidden` — and the result is
unconditionally independent of the configured `meta_lr` and
`update_frequency`. -/
theorem compute_update_rule_spec (sm : SelfModifyModule) (hidden : Tensor3)
    (st : SelfModifyState) (hen : sm.config.enabled = true) :
    sm.compute_update_rule hidden st =
      t2add (t2scale st.meta_state (9/10))
        (t2scale (metaNetForward sm.meta_network sm.tanh
          (hidden.map (fun m => m.getD 0 []))) (1/10)) ∧
    (∀ (lr : ℚ) (uf : Nat) (h2 : Tensor3) (st2 : SelfModifyState),
      SelfModifyModule.compute_update_rule { sm with config := { sm.config with meta_lr := lr, update_frequency := uf } } h2 st2 =
        sm.compute_update_rule h2 st2) := by
  constructor
  · have hslice : (fun (m : Mat) => (m.take 1).flatten) =
        fun (m : Mat) => m.getD 0 [] := by
      funext m; cases m <;> simp
    unfold SelfModifyModule.compute_update_rule metaNetForward
    simp only [hen, Bool.not_true, Bool.false_eq_true, if_false, hslice]
  · intro lr uf h2 st2
    rfl

/-- The enabled self-modify config (defaults with `weight_mod_dim = 2`). -/
def smCfgOn : SelfModifyConfig :=
  { enabled := true, meta_lr := 1/100000, update_frequency := 8,
    weight_mod_dim := 2 }

/-- The enabled self-modify module with trivial engine parts. -/
def smOn : SelfModifyModule :=
  { smOff with config := smCfgOn }

/-- Witness for C4 at a concrete enabled module and hidden tensor. -/
theorem compute_update_rule_spec_witness :
    smOn.config.enabled = true ∧
    smOn.compute_update_rule [[[1, 2], [3, 4]]] ⟨[[1, 1]], 0⟩ =
      t2add (t2scale [[1, 1]] (9/10))
        (t2scale (metaNetForward smOn.meta_network smOn.tanh [[1, 2]]) (1/10)) :=
  ⟨rfl, (compute_update_rule_spec smOn [[[1, 2], [3, 4]]] ⟨[[1, 1]], 0⟩ rfl).1⟩

/-! ## Claim C8 — `compress_gradient` -/

theorem getD_take_lt {α : Type} {l : List α} {k j : Nat} {d : α} (h : j < k) :
    (l.take k).getD j d = l.getD j d := by
  simp [List.getD_eq_getElem?_getD, List.getElem?_take_of_lt h]

theorem getD_vadd {x y : Vec} {j : Nat} (hx : j < x.length) (hy : j < y.length) :
    (vadd x y).getD j 0 = x.getD j 0 + y.getD j 0 := by
  simp [vadd, List.getD_eq_getElem?_getD, List.getElem?_zipWith,
    List.getElem?_eq_getElem hx, List.getElem?_eq_getElem hy]

theorem foldr_vadd_length {h : Nat} (m : Mat) (hm : ∀ r ∈ m, r.length = h) :
    (m.foldr vadd (List.replicate h (0:ℚ))).length = h := by
  induction m with
  | nil => simp
  | cons r rest ih =>
    have hr : r.length = h := hm r (by simp)
    have ih' := ih (fun x hx => hm x (by simp [hx]))
    simp [vadd, List.length_zipWith, hr, ih']

theorem foldr_vadd_getD {h j : Nat} (m : Mat) (hm : ∀ r ∈ m, r.length = h)
    (hj : j < h) :
    (m.foldr vadd (List.replicate h (0:ℚ))).getD j 0 =
      (m.map (fun r => r.getD j 0)).sum := by
  induction m with
  | nil => simp [List.getD_eq_getElem?_getD, List.getElem?_replicate_of_lt hj]
  | cons r rest ih =>
    have hr : r.length = h := hm r (by simp)
    have hlen := foldr_vadd_length rest (fun x hx => hm x (by simp [hx]))
    have ih' := ih (fun x hx => hm x (by simp [hx]))
    rw [List.foldr_cons, getD_vadd (by omega) (by omega), ih']
    simp

/-- C8: for every enabled optimizer and `[batch, seq, hidden]` gradient,
`compress_gradient` has shape `[batch, min(compression_dim, hidden)]` and
each kept entry is the sequence-axis average of the corresponding column — a
column slice of the averaged array, not a projection; when disabled it
returns an all-zeros `[batch, compression_dim]` tensor. -/
theorem compress_gradient_spec (cfg cfg2 : DeepOptimizerConfig) (g : Tensor3)
    (b s h : Nat) (hen : cfg.enabled = true) (hdis : cfg2.enabled = false)
    (hg : hasShape3 g b s h) (hs : 0 < s) :
    hasShape2 (DeepOptimizer.compress_gradient cfg g) b
      (min cfg.gradient_compression_dim h) ∧
    (∀ i j, i < b → j < min cfg.gradient_compression_dim h →
      ((DeepOptimizer.compress_gradient cfg g).getD i []).getD j 0 =
        ((g.getD i []).map (fun r => r.getD j 0)).sum / (s : ℚ)) ∧
    DeepOptimizer.compress_gradient cfg2 g = zeros2 b cfg2.gradient_compression_dim := by
  obtain ⟨hb, hrect⟩ := hg
  refine ⟨?_, ?_, ?_⟩
  · -- shape of the enabled result
    unfold DeepOptimizer.compress_gradient
    simp only [hen, Bool.not_true, Bool.false_eq_true, if_false]
    constructor
    · simp [hb]
    · intro r hr
      simp only [List.mem_map] at hr
      obtain ⟨v, hv, hrv⟩ := hr
      obtain ⟨m, hm, hmv⟩ := hv
      subst hrv hmv
      rcases Nat.eq_zero_or_pos b with hb0 | hb0
      · exact absurd (hb ▸ List.length_pos.mpr (List.ne_nil_of_mem hm)) (by omega)
      · have hd2 : t3dim2 g = h := by
          rcases g with _ | ⟨m0, grest⟩
          · simp at hb; omega
          · have hm0 : m0.length = s := (hrect m0 (by simp)).1
            rcases m0 with _ | ⟨r0, m0rest⟩
            · simp at hm0; omega
            · exact (hrect (r0 :: m0rest) (by simp)).2 r0 (by simp)
        have hrows : ∀ r' ∈ m, r'.length = h := (hrect m hm).2
        have hlenv : (m.foldr vadd (List.replicate h (0:ℚ))).length = h :=
          foldr_vadd_length m hrows
        simp only [hd2, List.length_take, vscale, List.length_map, hlenv]
        omega
  · -- pointwise value of the enabled result
    intro i j hi hj
    have hgne : g ≠ [] := by
      intro hnil; rw [hnil] at hb; simp at hb; omega
    have hd1 : t3dim1 g = s := by
      rcases g with _ | ⟨m0, grest⟩
      · exact absurd rfl hgne
      · exact (hrect m0 (by simp)).1
    have hd2 : t3dim2 g = h := by
      rcases g with _ | ⟨m0, grest⟩
      · exact absurd rfl hgne
      · have hm0 : m0.length = s := (hrect m0 (by simp)).1
        rcases m0 with _ | ⟨r0, m0rest⟩
        · simp at hm0; omega
        · exact (hrect (r0 :: m0rest) (by simp)).2 r0 (by simp)
    have him : g.getD i [] ∈ g := by
      rw [List.getD_eq_getElem g [] (by omega)]
      exact List.getElem_mem _
    have hrows : ∀ r' ∈ g.getD i [], r'.length = h := (hrect _ him).2
    have hlenv : (List.foldr vadd (List.replicate (t3dim2 g) (0:ℚ))
        (g.getD i [])).length = h := by
      rw [hd2]; exact foldr_vadd_length _ hrows
    unfold DeepOptimizer.compress_gradient
    simp only [hen, Bool.not_true, Bool.false_eq_true, if_false]
    rw [getD_map_lt (d := []) (by simp; omega)]
    rw [getD_map_lt (d := []) (by omega)]
    rw [getD_take_lt (by rw [hd2]; omega)]
    rw [vscale, getD_map_lt (d := 0) (by omega)]
    rw [hd2, foldr_vadd_getD _ hrows (by omega), hd1]
    rw [mul_one_div]
  · -- disabled branch
    simp [DeepOptimizer.compress_gradient, hdis, t3dim0, hb]

/-- The enabled optimizer config used in witnesses
(`gradient_compression_dim = 1`). -/
def optCfgOn : DeepOptimizerConfig :=
  { enabled := true, fast_lr_scale := 1, slow_lr_scale := 1/10,
    fast_ema := 9/10, slow_ema := 99/100, sync_interval := 64,
    gradient_compression_dim := 1 }

/-- Witness for C8 at a concrete `[1,2,2]` gradient. -/
theorem compress_gradient_spec_witness :
    optCfgOn.enabled = true ∧ optCfgOff.enabled = false ∧
    hasShape3 [[[(1:ℚ), 2], [3, 4]]] 1 2 2 ∧
    hasShape2 (DeepOptimizer.compress_gradient optCfgOn [[[(1:ℚ), 2], [3, 4]]]) 1
      (min optCfgOn.gradient_compression_dim 2) ∧
    ((DeepOptimizer.compress_gradient optCfgOn [[[(1:ℚ), 2], [3, 4]]]).getD 0 []).getD 0 0 =
      (([[(1:ℚ), 2], [3, 4]].map (fun r => r.getD 0 0)).sum) / (2 : ℚ) := by
  have h := compress_gradient_spec optCfgOn optCfgOff [[[(1:ℚ), 2], [3, 4]]] 1 2 2
    rfl rfl (by decide) (by decide)
  exact ⟨rfl, rfl, by decide, h.1, h.2.1 0 0 (by decide) (by decide)⟩

/-! ## Claims C7 and C10 — `update_fast_params` / `update_slow_params` -/

theorem ufpLoop_length (lr a : ℚ) (gs : List Tensor3) :
    ∀ (i : Nat) (fp fe : List Tensor3),
      (DeepOptimizer.ufpLoop lr a gs i (fp, fe)).1.length = fp.length ∧
      (DeepOptimizer.ufpLoop lr a gs i (fp, fe)).2.length = fe.length := by
  induction gs with
  | nil => intro i fp fe; simp [DeepOptimizer.ufpLoop]
  | cons g rest ih =>
    intro i fp fe
    simp only [DeepOptimizer.ufpLoop]
    by_cases h : fp.length ≤ i
    · simp only [if_pos h]; exact ih (i+1) fp fe
    · simp only [if_neg h]
      have h2 := ih (i+1) (fp.set i (t3sub (fp.getD i []) (t3scale g lr)))
        (fe.set i (t3add (t3scale (fe.getD i []) (1 - a))
          (t3scale ((fp.set i (t3sub (fp.getD i []) (t3scale g lr))).getD i []) a)))
      simpa [List.length_set] using h2

theorem ufpLoop_getD_unchanged (lr a : ℚ) (gs : List Tensor3) :
    ∀ (i : Nat) (fp fe : List Tensor3) (j : Nat), j < i ∨ i + gs.length ≤ j →
      (DeepOptimizer.ufpLoop lr a gs i (fp, fe)).1.getD j [] = fp.getD j [] ∧
      (DeepOptimizer.ufpLoop lr a gs i (fp, fe)).2.getD j [] = fe.getD j [] := by
  induction gs with
  | nil => intro i fp fe j _; simp [DeepOptimizer.ufpLoop]
  | cons g rest ih =>
    intro i fp fe j hj
    have hj' : j < i + 1 ∨ (i + 1) + rest.length ≤ j := by
      rcases hj with h | h
      · left; omega
      · right; simp only [List.length_cons] at h; omega
    have hne : i ≠ j := by
      rcases hj with h | h
      · omega
      · simp only [List.length_cons] at h; omega
    simp only [DeepOptimizer.ufpLoop]
    by_cases h : fp.length ≤ i
    · simp only [if_pos h]; exact ih (i+1) fp fe j hj'
    · simp only [if_neg h]
      have h2 := ih (i+1) (fp.set i (t3sub (fp.getD i []) (t3scale g lr)))
        (fe.set i (t3add (t3scale (fe.getD i []) (1 - a))
          (t3scale ((fp.set i (t3sub (fp.getD i []) (t3scale g lr))).getD i []) a)))
        j hj'
      rw [h2.1, h2.2, getD_set_ne hne, getD_set_ne hne]
      exact ⟨rfl, rfl⟩

theorem ufpLoop_getD_updated (lr a : ℚ) (gs : List Tensor3) :
    ∀ (i : Nat) (fp fe : List Tensor3), fe.length = fp.length →
      ∀ j, i ≤ j → j < i + gs.length → j < fp.length →
      (DeepOptimizer.ufpLoop lr a gs i (fp, fe)).1.getD j [] =
        t3sub (fp.getD j []) (t3scale (gs.getD (j - i) []) lr) ∧
      (DeepOptimizer.ufpLoop lr a gs i (fp, fe)).2.getD j [] =
        t3add (t3scale (fe.getD j []) (1 - a))
          (t3scale (t3sub (fp.getD j []) (t3scale (gs.getD (j - i) []) lr)) a) := by
  induction gs with
  | nil => intro i fp fe _ j h1 h2 _; simp only [List.length_nil] at h2; omega
  | cons g rest ih =>
    intro i fp fe hlen j h1 h2 h3
    have hile : ¬ fp.length ≤ i := by omega
    simp only [DeepOptimizer.ufpLoop, if_neg hile]
    rcases eq_or_lt_of_le h1 with heq | hlt
    · -- j = i: the touched index, untouched by the remaining iterations
      subst heq
      have hrest := ufpLoop_getD_unchanged lr a rest (i+1)
        (fp.set i (t3sub (fp.getD i []) (t3scale g lr)))
        (fe.set i (t3add (t3scale (fe.getD i []) (1 - a))
          (t3scale ((fp.set i (t3sub (fp.getD i []) (t3scale g lr))).getD i []) a)))
        i (Or.inl (by omega))
      constructor
      · rw [hrest.1, getD_set_self (by omega)]
        simp
      · rw [hrest.2, getD_set_self (by omega), getD_set_self (by omega)]
        simp
    · -- i < j: handled by the remaining iterations on the set lists
      have h2' := ih (i+1) (fp.set i (t3sub (fp.getD i []) (t3scale g lr)))
        (fe.set i (t3add (t3scale (fe.getD i []) (1 - a))
          (t3scale ((fp.set i (t3sub (fp.getD i []) (t3scale g lr))).getD i []) a)))
        (by simp [hlen]) j (by omega)
        (by simp only [List.length_cons] at h2; simpa [List.length_set] using by omega)
        (by simpa [List.length_set] using h3)
      have hne : i ≠ j := by omega
      have hidx : j - i = (j - (i + 1)) + 1 := by omega
      rw [h2'.1, h2'.2, getD_set_ne hne, getD_set_ne hne, hidx]
      simp only [List.getD_cons_succ]
      trivial

theorem uspLoop_length (lr a : ℚ) (fem : List Tensor3) :
    ∀ (k i : Nat) (sp se : List Tensor3),
      (DeepOptimizer.uspLoop lr a fem k i (sp, se)).1.length = sp.length ∧
      (DeepOptimizer.uspLoop lr a fem k i (sp, se)).2.length = se.length := by
  intro k
  induction k with
  | zero => intro i sp se; simp [DeepOptimizer.uspLoop]
  | succ k ih =>
    intro i sp se
    simp only [DeepOptimizer.uspLoop]
    have h2 := ih (i+1)
      (sp.set i (t3add (sp.getD i [])
        (t3scale (t3sub (fem.getD i []) (sp.getD i [])) lr)))
      (se.set i (t3add (t3scale (se.getD i []) (1 - a))
        (t3scale ((sp.set i (t3add (sp.getD i [])
          (t3scale (t3sub (fem.getD i []) (sp.getD i [])) lr))).getD i []) a)))
    simpa [List.length_set] using h2

theorem uspLoop_getD_unchanged (lr a : ℚ) (fem : List Tensor3) :
    ∀ (k i : Nat) (sp se : List Tensor3) (j : Nat), j < i ∨ i + k ≤ j →
      (DeepOptimizer.uspLoop lr a fem k i (sp, se)).1.getD j [] = sp.getD j [] ∧
      (DeepOptimizer.uspLoop lr a fem k i (sp, se)).2.getD j [] = se.getD j [] := by
  intro k
  induction k with
  | zero => intro i sp se j _; simp [DeepOptimizer.uspLoop]
  | succ k ih =>
    intro i sp se j hj
    have hj' : j < i + 1 ∨ (i + 1) + k ≤ j := by omega
    have hne : i ≠ j := by omega
    simp only [DeepOptimizer.uspLoop]
    have h2 := ih (i+1)
      (sp.set i (t3add (sp.getD i [])
        (t3scale (t3sub (fem.getD i []) (sp.getD i [])) lr)))
      (se.set i (t3add (t3scale (se.getD i []) (1 - a))
        (t3scale ((sp.set i (t3add (sp.getD i [])
          (t3scale (t3sub (fem.getD i []) (sp.getD i [])) lr))).getD i []) a)))
      j hj'
    rw [h2.1, h2.2, getD_set_ne hne, getD_set_ne hne]
    exact ⟨rfl, rfl⟩

theorem uspLoop_getD_updated (lr a : ℚ) (fem : List Tensor3) :
    ∀ (k i : Nat) (sp se : List Tensor3), se.length = sp.length →
      ∀ j, i ≤ j → j < i + k → j < sp.length →
      (DeepOptimizer.uspLoop lr a fem k i (sp, se)).1.getD j [] =
        t3add (sp.getD j []) (t3scale (t3sub (fem.getD j []) (sp.getD j [])) lr) ∧
      (DeepOptimizer.uspLoop lr a fem k i (sp, se)).2.getD j [] =
        t3add (t3scale (se.getD j []) (1 - a))
          (t3scale (t3add (sp.getD j [])
            (t3scale (t3sub (fem.getD j []) (sp.getD j [])) lr)) a) := by
  intro k
  induction k with
  | zero => intro i sp se _ j h1 h2 _; omega
  | succ k ih =>
    intro i sp se hlen j h1 h2 h3
    simp only [DeepOptimizer.uspLoop]
    rcases eq_or_lt_of_le h1 with heq | hlt
    · subst heq
      have hrest := uspLoop_getD_unchanged lr a fem k (i+1)
        (sp.set i (t3add (sp.getD i [])
          (t3scale (t3sub (fem.getD i []) (sp.getD i [])) lr)))
        (se.set i (t3add (t3scale (se.getD i []) (1 - a))
          (t3scale ((sp.set i (t3add (sp.getD i [])
            (t3scale (t3sub (fem.getD i []) (sp.getD i [])) lr))).getD i []) a)))
        i (Or.inl (by omega))
      constructor
      · rw [hrest.1, getD_set_self (by omega)]
      · rw [hrest.2, getD_set_self (by omega), getD_set_self (by omega)]
    · have h2' := ih (i+1)
        (sp.set i (t3add (sp.getD i [])
          (t3scale (t3sub (fem.getD i []) (sp.getD i [])) lr)))
        (se.set i (t3add (t3scale (se.getD i []) (1 - a))
          (t3scale ((sp.set i (t3add (sp.getD i [])
            (t3scale (t3sub (fem.getD i []) (sp.getD i [])) lr))).getD i []) a)))
        (by simp [List.length_set, hlen]) j (by omega) (by omega)
        (by simpa [List.length_set] using h3)
      have hne : i ≠ j := by omega
      rw [h2'.1, h2'.2, getD_set_ne hne, getD_set_ne hne]
      exact ⟨rfl, rfl⟩

theorem ufpLoop_oob (lr a : ℚ) (gs : List Tensor3) :
    ∀ (i : Nat) (fp fe : List Tensor3), fp.length ≤ i →
      DeepOptimizer.ufpLoop lr a gs i (fp, fe) = (fp, fe) := by
  induction gs with
  | nil => intro i fp fe _; simp [DeepOptimizer.ufpLoop]
  | cons g rest ih =>
    intro i fp fe h
    simp only [DeepOptimizer.ufpLoop, if_pos h]
    exact ih (i+1) fp fe (by omega)

theorem ufpLoop_take (lr a : ℚ) (gs : List Tensor3) :
    ∀ (i : Nat) (fp fe : List Tensor3),
      DeepOptimizer.ufpLoop lr a gs i (fp, fe) =
        DeepOptimizer.ufpLoop lr a (gs.take (fp.length - i)) i (fp, fe) := by
  induction gs with
  | nil => intro i fp fe; simp
  | cons g rest ih =>
    intro i fp fe
    by_cases h : fp.length ≤ i
    · have h0 : fp.length - i = 0 := by omega
      rw [h0, List.take_zero]
      simp only [DeepOptimizer.ufpLoop, if_pos h]
      rw [ufpLoop_oob lr a rest (i+1) fp fe (by omega)]
    · have h1 : fp.length - i = (fp.length - (i+1)) + 1 := by omega
      rw [h1, List.take_succ_cons]
      simp only [DeepOptimizer.ufpLoop, if_neg h]
      rw [ih (i+1) (fp.set i (t3sub (fp.getD i []) (t3scale g lr)))
        (fe.set i (t3add (t3scale (fe.getD i []) (1 - a))
          (t3scale ((fp.set i (t3sub (fp.getD i []) (t3scale g lr))).getD i []) a)))]
      simp [List.length_set]

/-- C7: for every enabled optimizer, `update_fast_params` performs, per level
`ℓ`, `fast_params[ℓ] -= gradients[ℓ]*(lr*fast_lr_scale)` then
`fast_ema[ℓ] = fast_ema[ℓ]*(1-fast_ema) + fast_params[ℓ]*fast_ema` (with the
fresh `fast_params[ℓ]`), incrementing the shared step counter exactly once
per call; `update_slow_params` performs, per level,
`slow_params[ℓ] += (fast_ema[ℓ] - slow_params[ℓ])*(lr*slow_lr_scale)` and the
analogous `slow_ema` update, without touching the step counter. -/
theorem dual_rate_update_rules (cfg : DeepOptimizerConfig)
    (st : DeepOptimizerState) (gs : List Tensor3) (lr : ℚ) (n : Nat)
    (hen : cfg.enabled = true) (hfp : st.fast_params.length = n)
    (hfe : st.fast_ema.length = n) (hsp : st.slow_params.length = n)
    (hse : st.slow_ema.length = n) (hgs : gs.length = n) :
    (DeepOptimizer.update_fast_params cfg st gs lr).step_count = st.step_count + 1 ∧
    (DeepOptimizer.update_fast_params cfg st gs lr).slow_params = st.slow_params ∧
    (DeepOptimizer.update_fast_params cfg st gs lr).slow_ema = st.slow_ema ∧
    (∀ L, L < n →
      (DeepOptimizer.update_fast_params cfg st gs lr).fast_params.getD L [] =
        t3sub (st.fast_params.getD L [])
          (t3scale (gs.getD L []) (lr * cfg.fast_lr_scale)) ∧
      (DeepOptimizer.update_fast_params cfg st gs lr).fast_ema.getD L [] =
        t3add (t3scale (st.fast_ema.getD L []) (1 - cfg.fast_ema))
          (t3scale ((DeepOptimizer.update_fast_params cfg st gs lr).fast_params.getD L [])
            cfg.fast_ema)) ∧
    (DeepOptimizer.update_slow_params cfg st lr).step_count = st.step_count ∧
    (DeepOptimizer.update_slow_params cfg st lr).fast_params = st.fast_params ∧
    (DeepOptimizer.update_slow_params cfg st lr).fast_ema = st.fast_ema ∧
    (∀ L, L < n →
      (DeepOptimizer.update_slow_params cfg st lr).slow_params.getD L [] =
        t3add (st.slow_params.getD L [])
          (t3scale (t3sub (st.fast_ema.getD L []) (st.slow_params.getD L []))
            (lr * cfg.slow_lr_scale)) ∧
      (DeepOptimizer.update_slow_params cfg st lr).slow_ema.getD L [] =
        t3add (t3scale (st.slow_ema.getD L []) (1 - cfg.slow_ema))
          (t3scale ((DeepOptimizer.update_slow_params cfg st lr).slow_params.getD L [])
            cfg.slow_ema)) := by
  simp only [DeepOptimizer.update_fast_params, DeepOptimizer.update_slow_params,
    hen, Bool.not_true, Bool.false_eq_true, if_false]
  refine ⟨trivial, trivial, trivial, ?_, trivial, trivial, trivial, ?_⟩
  · intro L hL
    have hup := ufpLoop_getD_updated (lr * cfg.fast_lr_scale) cfg.fast_ema gs 0
      st.fast_params st.fast_ema (by omega) L (by omega) (by omega) (by omega)
    simp only [Nat.sub_zero] at hup
    exact ⟨hup.1, by rw [hup.2, hup.1]⟩
  · intro L hL
    have hup := uspLoop_getD_updated (lr * cfg.slow_lr_scale) cfg.slow_ema
      st.fast_ema st.slow_params.length 0 st.slow_params st.slow_ema (by omega)
      L (by omega) (by omega) (by omega)
    exact ⟨hup.1, by rw [hup.2, hup.1]⟩

/-- Witness for C7 at a one-level concrete state. -/
theorem dual_rate_update_rules_witness :
    (DeepOptimizer.update_fast_params optCfgOn
      ⟨[[[[2]]]], [[[[3]]]], [[[[4]]]], [[[[5]]]], 7⟩ [[[[1]]]] 2).step_count = 8 ∧
    (DeepOptimizer.update_fast_params optCfgOn
      ⟨[[[[2]]]], [[[[3]]]], [[[[4]]]], [[[[5]]]], 7⟩ [[[[1]]]] 2).fast_params.getD 0 [] =
      t3sub [[[2]]] (t3scale [[[1]]] (2 * optCfgOn.fast_lr_scale)) ∧
    (DeepOptimizer.update_slow_params optCfgOn
      ⟨[[[[2]]]], [[[[3]]]], [[[[4]]]], [[[[5]]]], 7⟩ 2).slow_params.getD 0 [] =
      t3add [[[3]]] (t3scale (t3sub [[[4]]] [[[3]]]) (2 * optCfgOn.slow_lr_scale)) := by
  have h := dual_rate_update_rules optCfgOn
    ⟨[[[[2]]]], [[[[3]]]], [[[[4]]]], [[[[5]]]], 7⟩ [[[[1]]]] 2 1
    rfl rfl rfl rfl rfl rfl
  exact ⟨h.1, (h.2.2.2.1 0 (by omega)).1, (h.2.2.2.2.2.2.2 0 (by omega)).1⟩

/-- C10: for every enabled optimizer, `update_fast_params` tolerates a
gradient list whose length differs from the number of levels: the result
equals the run on the list truncated to `fast_params.len()` (extra entries
are skipped, with no out-of-bounds access), levels at or beyond the gradient
list length keep their `fast_params` and `fast_ema` exactly unchanged, and
the step counter increments by exactly 1 regardless of the list length. -/
theorem update_fast_params_tolerant (cfg : DeepOptimizerConfig)
    (st : DeepOptimizerState) (gs : List Tensor3) (lr : ℚ)
    (hen : cfg.enabled = true) :
    (DeepOptimizer.update_fast_params cfg st gs lr).step_count = st.step_count + 1 ∧
    (DeepOptimizer.update_fast_params cfg st gs lr).fast_params.length =
      st.fast_params.length ∧
    (DeepOptimizer.update_fast_params cfg st gs lr).fast_ema.length =
      st.fast_ema.length ∧
    DeepOptimizer.update_fast_params cfg st gs lr =
      DeepOptimizer.update_fast_params cfg st (gs.take st.fast_params.length) lr ∧
    (∀ j, gs.length ≤ j →
      (DeepOptimizer.update_fast_params cfg st gs lr).fast_params.getD j [] =
        st.fast_params.getD j [] ∧
      (DeepOptimizer.update_fast_params cfg st gs lr).fast_ema.getD j [] =
        st.fast_ema.getD j []) := by
  have hflr : ∀ gs' : List Tensor3,
      DeepOptimizer.ufpLoop (lr * cfg.fast_lr_scale) cfg.fast_ema gs' 0
        (st.fast_params, st.fast_ema) =
      DeepOptimizer.ufpLoop (lr * cfg.fast_lr_scale) cfg.fast_ema
        (gs'.take st.fast_params.length) 0 (st.fast_params, st.fast_ema) := by
    intro gs'
    have := ufpLoop_take (lr * cfg.fast_lr_scale) cfg.fast_ema gs' 0
      st.fast_params st.fast_ema
    simpa using this
  simp only [DeepOptimizer.update_fast_params, hen, Bool.not_true,
    Bool.false_eq_true, if_false]
  refine ⟨trivial, ?_, ?_, ?_, ?_⟩
  · exact (ufpLoop_length (lr * cfg.fast_lr_scale) cfg.fast_ema gs 0
      st.fast_params st.fast_ema).1
  · exact (ufpLoop_length (lr * cfg.fast_lr_scale) cfg.fast_ema gs 0
      st.fast_params st.fast_ema).2
  · rw [hflr gs, hflr (gs.take st.fast_params.length), List.take_take]
  · intro j hj
    exact ufpLoop_getD_unchanged (lr * cfg.fast_lr_scale) cfg.fast_ema gs 0
      st.fast_params st.fast_ema j (Or.inr (by omega))

/-- Witness for C10: a one-level state given a two-entry gradient list. -/
theorem update_fast_params_tolerant_witness :
    (DeepOptimizer.update_fast_params optCfgOn (DeepOptimizer.init_state 1 1 1 1)
      [[[[1]]], [[[2]]]] 1).step_count = 0 + 1 ∧
    DeepOptimizer.update_fast_params optCfgOn (DeepOptimizer.init_state 1 1 1 1)
      [[[[1]]], [[[2]]]] 1 =
      DeepOptimizer.update_fast_params optCfgOn (DeepOptimizer.init_state 1 1 1 1)
        ([[[[1]]], [[[2]]]].take 1) 1 ∧
    (DeepOptimizer.update_fast_params optCfgOn (DeepOptimizer.init_state 1 1 1 1)
      [[[[1]]], [[[2]]]] 1).fast_params.getD 2 [] =
      (DeepOptimizer.init_state 1 1 1 1).fast_params.getD 2 [] := by
  have h := update_fast_params_tolerant optCfgOn (DeepOptimizer.init_state 1 1 1 1)
    [[[[1]]], [[[2]]]] 1 rfl
  exact ⟨h.1, h.2.2.2.1, (h.2.2.2.2 2 (by decide)).1⟩

/-! ## Claim C2 — encoder evaluation schedule and `update_count` -/

/-- The expected evaluation schedule: for timescales `ts` starting at level
`i`, level `i` appears `ts[0]` times, then level `i+1` appears `ts[1]` times,
and so on. -/
def levelTrace : List Nat → Nat → List Nat
  | [], _ => []
  | t :: rest, i => List.replicate t i ++ levelTrace rest (i + 1)

theorem levelTrace_length (ts : List Nat) : ∀ i, (levelTrace ts i).length = ts.sum := by
  induction ts with
  | nil => intro i; simp [levelTrace]
  | cons t rest ih => intro i; simp [levelTrace, ih]

theorem innerLoopT_trace (sm? : Option SelfModifyModule) (e : Tensor3 → Tensor3)
    (idx : Nat) :
    ∀ (t : Nat) (ls po : Tensor3) (st : Option SelfModifyState) (tr : List Nat),
      (HopeModel.innerLoopT sm? e idx t ls po st tr).2.2 =
        tr ++ List.replicate t idx := by
  intro t
  induction t with
  | zero => intro ls po st tr; simp [HopeModel.innerLoopT]
  | succ t ih =>
    intro ls po st tr
    rcases sm? with _ | sm <;> rcases st with _ | s <;>
      simp only [HopeModel.innerLoopT] <;> rw [ih] <;>
      simp [List.replicate_succ]

theorem innerLoopT_count (sm : SelfModifyModule) (e : Tensor3 → Tensor3)
    (idx : Nat) :
    ∀ (t : Nat) (ls po : Tensor3) (s : SelfModifyState) (tr : List Nat),
      ∃ s', (HopeModel.innerLoopT (some sm) e idx t ls po (some s) tr).2.1 =
          some s' ∧ s'.update_count = s.update_count + t := by
  intro t
  induction t with
  | zero => intro ls po s tr; exact ⟨s, rfl, rfl⟩
  | succ t ih =>
    intro ls po s tr
    simp only [HopeModel.innerLoopT]
    obtain ⟨s', h1, h2⟩ := ih (sm.apply_weight_modification (e (t3add ls po))
      (sm.compute_update_rule (e (t3add ls po)) s)) po
      ⟨sm.compute_update_rule (e (t3add ls po)) s, s.update_count + 1⟩ (tr ++ [idx])
    refine ⟨s', h1, ?_⟩
    have h2' : s'.update_count = s.update_count + 1 + t := h2
    omega

theorem levelLoopT_trace (sm? : Option SelfModifyModule) :
    ∀ (ps : List ((Tensor3 → Tensor3) × Nat)) (i : Nat) (lss : List Tensor3)
      (po : Tensor3) (st : Option SelfModifyState) (tr : List Nat),
      (HopeModel.levelLoopT sm? ps i lss po st tr).2.2.2 =
        tr ++ levelTrace (ps.map Prod.snd) i := by
  intro ps
  induction ps with
  | nil => intro i lss po st tr; simp [HopeModel.levelLoopT, levelTrace]
  | cons p rest ih =>
    obtain ⟨e, t⟩ := p
    intro i lss po st tr
    simp only [HopeModel.levelLoopT]
    rw [ih, innerLoopT_trace]
    simp [levelTrace, List.append_assoc, List.map_cons]

theorem levelLoopT_count (sm : SelfModifyModule) :
    ∀ (ps : List ((Tensor3 → Tensor3) × Nat)) (i : Nat) (lss : List Tensor3)
      (po : Tensor3) (s : SelfModifyState) (tr : List Nat),
      ∃ s', (HopeModel.levelLoopT (some sm) ps i lss po (some s) tr).2.2.1 =
          some s' ∧ s'.update_count = s.update_count + (ps.map Prod.snd).sum := by
  intro ps
  induction ps with
  | nil => intro i lss po s tr; exact ⟨s, rfl, by simp⟩
  | cons p rest ih =>
    obtain ⟨e, t⟩ := p
    intro i lss po s tr
    simp only [HopeModel.levelLoopT]
    obtain ⟨s1, hs1, hc1⟩ := innerLoopT_count sm e i t (lss.getD i []) po s tr
    rw [hs1]
    obtain ⟨s', hs', hc'⟩ := ih (i + 1) _ _ s1 _
    refine ⟨s', hs', ?_⟩
    rw [hc', hc1]
    simp [List.map_cons]
    omega

/-- C2: every forward call evaluates the encoders exactly
`sum(level_timescales)` times, strictly in level order (the evaluation trace
is level 0 repeated `timescales[0]` times, then level 1, …), regardless of
configuration; and whenever self-modification is enabled (module and carried
state present), `update_count` grows by exactly `sum(level_timescales)`.
The count statement holds for every module, hence for every configured
`update_frequency`. -/
theorem forward_schedule_and_update_count (m : HopeModel)
    (tokens : List (List Nat)) (carry : HopeCarry)
    (hlen : m.level_encoders.length = m.config.level_timescales.length) :
    HopeModel.forwardTrace m tokens carry =
      levelTrace m.config.level_timescales 0 ∧
    (HopeModel.forwardTrace m tokens carry).length =
      m.config.level_timescales.sum ∧
    (∀ (sm : SelfModifyModule) (s : SelfModifyState),
      m.self_modify = some sm → carry.self_modify = some s →
      ∃ s', (HopeModel.forward m tokens carry).1.self_modify = some s' ∧
        s'.update_count = s.update_count + m.config.level_timescales.sum) := by
  have hzip : (m.level_encoders.zip m.config.level_timescales).map Prod.snd =
      m.config.level_timescales :=
    List.map_snd_zip _ _ (le_of_eq hlen.symm)
  have htr : HopeModel.forwardTrace m tokens carry =
      levelTrace m.config.level_timescales 0 := by
    unfold HopeModel.forwardTrace HopeModel.forwardT
    rw [levelLoopT_trace]
    simp [hzip]
  refine ⟨htr, by rw [htr, levelTrace_length], ?_⟩
  intro sm s hsm hcs
  obtain ⟨s', hs', hc'⟩ := levelLoopT_count sm
    (m.level_encoders.zip m.config.level_timescales) 0 carry.level_states
    (match m.continuum_memory, carry.continuum_memory with
      | some mem, some mem_state => mem.retrieve mem_state
          (t3add (tokens.map (fun row => row.map (fun t =>
            vscale (m.token_embed.getD t []) m.embed_scale)))
            (List.replicate tokens.length
              ((List.range (tokens.headD []).length).map
                (fun p => m.pos_embed.getD p []))))
      | _, _ => t3add (tokens.map (fun row => row.map (fun t =>
            vscale (m.token_embed.getD t []) m.embed_scale)))
            (List.replicate tokens.length
              ((List.range (tokens.headD []).length).map
                (fun p => m.pos_embed.getD p []))))
    s []
  refine ⟨s', ?_, by rw [hc', hzip]⟩
  unfold HopeModel.forward HopeModel.forwardT
  rw [hcs, hsm] at *
  exact hs'

/-- Concrete 2-level config: timescales `[1, 2]`, memory and optimizer
disabled, self-modification enabled. -/
def hopeCfg2 : HopeConfig :=
  { hidden_size := 1, vocab_size := 2, seq_len := 1, num_heads := 1,
    num_layers := 1, ff_multiplier := 4, dropout := 1/10, num_levels := 2,
    level_timescales := [1, 2], continuum_mem := cmCfgOff,
    self_modify := smCfgOn, deep_optimizer := optCfgOff }

/-- Concrete 2-level model with identity encoders and self-modification
enabled. -/
def hopeModel2 : HopeModel :=
  { config := hopeCfg2, token_embed := [[0], [0]], pos_embed := [[0]],
    level_encoders := [id, id], continuum_memory := none,
    self_modify := some smOn, head := ⟨[[0]], [0]⟩, embed_scale := 1 }

/-- Witness for C2: the 2-level model with timescales `[1, 2]` evaluates its
encoders in the order `[0, 1, 1]` (3 = 1+2 evaluations) and grows
`update_count` from 0 to 3 in one forward call. -/
theorem forward_schedule_and_update_count_witness :
    HopeModel.forwardTrace hopeModel2 [[1]] (hopeModel2.initial_carry 1) =
      levelTrace [1, 2] 0 ∧
    (HopeModel.forwardTrace hopeModel2 [[1]] (hopeModel2.initial_carry 1)).length =
      List.sum [1, 2] ∧
    ∃ s', (HopeModel.forward hopeModel2 [[1]] (hopeModel2.initial_carry 1)).1.self_modify =
        some s' ∧ s'.update_count = 0 + List.sum [1, 2] := by
  have h := forward_schedule_and_update_count hopeModel2 [[1]]
    (hopeModel2.initial_carry 1) rfl
  exact ⟨h.1, h.2.1, h.2.2 smOn (smOn.init_state 1) rfl rfl⟩

/-! ## Claim C1 — shape lemmas for the forward contract -/

theorem exists_of_mem_zipWith {α β γ : Type} {f : α → β → γ} :
    ∀ {x : List α} {y : List β} {c : γ}, c ∈ List.zipWith f x y →
      ∃ a ∈ x, ∃ b ∈ y, c = f a b := by
  intro x
  induction x with
  | nil => intro y c hc; simp at hc
  | cons a xs ih =>
    intro y c hc
    cases y with
    | nil => simp at hc
    | cons b ys =>
      simp only [List.zipWith_cons_cons, List.mem_cons] at hc
      rcases hc with hc | hc
      · exact ⟨a, by simp, b, by simp, hc⟩
      · obtain ⟨a', ha', b', hb', h⟩ := ih hc
        exact ⟨a', by simp [ha'], b', by simp [hb'], h⟩

theorem t3add_shape {x y : Tensor3} {b s h : Nat}
    (hx : hasShape3 x b s h) (hy : hasShape3 y b s h) :
    hasShape3 (t3add x y) b s h := by
  obtain ⟨hxl, hxm⟩ := hx
  obtain ⟨hyl, hym⟩ := hy
  constructor
  · simp [t3add, List.length_zipWith, hxl, hyl]
  · intro c hc
    obtain ⟨mx, hmx, my, hmy, rfl⟩ := exists_of_mem_zipWith hc
    obtain ⟨hmxs, hmxr⟩ := hxm mx hmx
    obtain ⟨hmys, hmyr⟩ := hym my hmy
    constructor
    · simp [t2add, List.length_zipWith, hmxs, hmys]
    · intro r hr
      obtain ⟨rx, hrx, ry, hry, rfl⟩ := exists_of_mem_zipWith hr
      simp [vadd, List.length_zipWith, hmxr rx hrx, hmyr ry hry]

theorem t3scale_shape {x : Tensor3} {b s h : Nat} (c : ℚ)
    (hx : hasShape3 x b s h) : hasShape3 (t3scale x c) b s h := by
  obtain ⟨hxl, hxm⟩ := hx
  constructor
  · simp [t3scale, hxl]
  · intro mm hmm
    obtain ⟨mx, hmx, rfl⟩ := List.mem_map.mp hmm
    obtain ⟨hmxs, hmxr⟩ := hxm mx hmx
    constructor
    · simp [t2scale, hmxs]
    · intro r hr
      obtain ⟨rx, hrx, rfl⟩ := List.mem_map.mp hr
      simp [vscale, hmxr rx hrx]

theorem forwardRow_length (l : Linear) (x : Vec) :
    (l.forwardRow x).length = l.bias.length := by
  simp [Linear.forwardRow]

theorem getD_length_of_rows {tab : List Vec} {h : Nat}
    (ht : ∀ r ∈ tab, r.length = h) {i : Nat} (hi : i < tab.length) :
    (tab.getD i []).length = h := by
  have hmem : tab.getD i [] ∈ tab := by
    rw [List.getD_eq_getElem tab [] hi]
    exact List.getElem_mem _
  exact ht _ hmem

theorem mapNorm_shape (norm : Vec → Vec)
    (hn : ∀ u, (norm u).length = u.length) {t : Tensor3} {b s h : Nat}
    (ht : hasShape3 t b s h) :
    hasShape3 (t.map (fun mm => mm.map norm)) b s h := by
  obtain ⟨htl, htm⟩ := ht
  constructor
  · simp [htl]
  · intro mm hmm
    obtain ⟨mx, hmx, rfl⟩ := List.mem_map.mp hmm
    obtain ⟨hmxs, hmxr⟩ := htm mx hmx
    constructor
    · simp [hmxs]
    · intro r hr
      obtain ⟨rx, hrx, rfl⟩ := List.mem_map.mp hr
      rw [hn rx]
      exact hmxr rx hrx

theorem chunkRows_shape (flat : Tensor2) (b s h : Nat)
    (hl : flat.length = b * s) (hr : ∀ r ∈ flat, r.length = h) :
    hasShape3 (chunkRows b s flat) b s h := by
  constructor
  · simp [chunkRows]
  · intro mm hmm
    obtain ⟨i, hi, rfl⟩ := List.mem_map.mp hmm
    have hib : i < b := List.mem_range.mp hi
    constructor
    · have hge : s + i * s ≤ flat.length := by
        rw [hl]
        have h1 : (i + 1) * s ≤ b * s := Nat.mul_le_mul_right s hib
        have h2 : (i + 1) * s = i * s + s := by ring
        omega
      simp only [List.length_take, List.length_drop]
      omega
    · intro r hrr
      have hr1 : r ∈ flat.drop (i * s) := List.mem_of_mem_take hrr
      exact hr r (List.mem_of_mem_drop hr1)

theorem flatten_length_of_shape {t : Tensor3} {b s h : Nat}
    (ht : hasShape3 t b s h) : t.flatten.length = b * s := by
  obtain ⟨htl, htm⟩ := ht
  rw [List.length_flatten]
  have hrep : t.map List.length = List.replicate b s := by
    have h1 : ∀ x ∈ t.map List.length, x = s := by
      intro x hx
      obtain ⟨mx, hmx, rfl⟩ := List.mem_map.mp hx
      exact (htm mx hmx).1
    have h2 := List.eq_replicate_of_mem h1
    simpa [htl] using h2
  rw [hrep, List.sum_replicate, smul_eq_mul]

/-- All five banks of a memory state have shape `[b, s, h]`. -/
def memStateShaped (st : ContinuumMemoryState) (b s h : Nat) : Prop :=
  hasShape3 st.ultra_short b s h ∧ hasShape3 st.short b s h ∧
  hasShape3 st.mid b s h ∧ hasShape3 st.long b s h ∧
  hasShape3 st.episodic b s h

instance (st : ContinuumMemoryState) (b s h : Nat) :
    Decidable (memStateShaped st b s h) := by
  unfold memStateShaped; infer_instance

theorem cat1_map5_length {b : Nat} (f : Mat → Mat) (u1 u2 u3 u4 u5 : Tensor3)
    (h1 : u1.length = b) (h2 : u2.length = b) (h3 : u3.length = b)
    (h4 : u4.length = b) (h5 : u5.length = b) :
    (cat1 ([u1, u2, u3, u4, u5].map (fun mem => mem.map f))).length = b := by
  simp only [List.map_cons, List.map_nil, cat1, List.foldl_cons, List.foldl_nil]
  simp [List.length_zipWith, h1, h2, h3, h4, h5]

theorem attended_shape {b s hid : Nat} (softmax : Vec → Vec) (sc : ℚ)
    (queryP keys values : Tensor3)
    (hqpl : queryP.length = b) (hqpr : ∀ mm ∈ queryP, mm.length = s)
    (hkl : keys.length = b) (hvl : values.length = b) :
    hasShape3
      (List.zipWith (fun w v => matmulT w (transposeW v hid))
        ((List.zipWith (fun q k => (matmulT q k).map (fun r => vscale r sc))
          queryP keys).map (fun mat => mat.map softmax))
        values) b s hid := by
  constructor
  · simp [List.length_zipWith, List.length_map, hqpl, hkl, hvl]
  · intro c hc
    obtain ⟨w, hw, v, hv, rfl⟩ := exists_of_mem_zipWith hc
    obtain ⟨mat, hmat, rfl⟩ := List.mem_map.mp hw
    obtain ⟨qp, hqp, k, hk, rfl⟩ := exists_of_mem_zipWith hmat
    constructor
    · simp [matmulT, hqpr qp hqp]
    · intro r hr
      obtain ⟨wr, hwr, rfl⟩ := List.mem_map.mp hr
      simp [transposeW]

/-- Shape preservation of `retrieve`: for a `[b,s,h]` query and a
well-shaped memory state, the retrieved tensor is `[b,s,h]` again. -/
theorem retrieve_shape (cm : ContinuumMemory) (st : ContinuumMemoryState)
    (q : Tensor3) {b s h : Nat} (hst : memStateShaped st b s h)
    (hq : hasShape3 q b s h) : hasShape3 (cm.retrieve st q) b s h := by
  obtain ⟨hus, hsh, hmd, hlg, hep⟩ := hst
  unfold ContinuumMemory.retrieve
  cases hE : cm.config.enabled with
  | false => simpa [hE] using hq
  | true =>
    simp only [hE, Bool.not_true, Bool.false_eq_true, if_false]
    have hatt := @attended_shape b s (t3dim2 q) cm.softmax
      cm.scale
      (q.map (fun mat => mat.map (fun r => cm.norm (cm.query_proj.forwardRow r))))
      (cat1 ([st.ultra_short, st.short, st.mid, st.long, st.episodic].map
        (fun mem => mem.map (fun mat => mat.map cm.key_proj.forwardRow))))
      (cat1 ([st.ultra_short, st.short, st.mid, st.long, st.episodic].map
        (fun mem => mem.map (fun mat => mat.map cm.value_proj.forwardRow))))
      (by simp [hq.1])
      (by
        intro mm hmm
        obtain ⟨mx, hmx, rfl⟩ := List.mem_map.mp hmm
        simp [(hq.2 mx hmx).1])
      (cat1_map5_length _ _ _ _ _ _
        (by simp [hus.1]) (by simp [hsh.1]) (by simp [hmd.1])
        (by simp [hlg.1]) (by simp [hep.1]))
      (cat1_map5_length _ _ _ _ _ _
        (by simp [hus.1]) (by simp [hsh.1]) (by simp [hmd.1])
        (by simp [hlg.1]) (by simp [hep.1]))
    simp only [List.map_cons, List.map_nil] at hatt
    have hd2 : ∀ mq ∈ q, ∀ rq ∈ mq, t3dim2 q = h := by
      intro mq hmq rq hrq
      rcases q with _ | ⟨m0, qs⟩
      · simp at hmq
      · have hm0s : m0.length = s := (hq.2 m0 (by simp)).1
        have hs0 : 0 < s := by
          have : mq.length = s := (hq.2 mq hmq).1
          have : 0 < mq.length := List.length_pos.mpr (List.ne_nil_of_mem hrq)
          omega
        rcases m0 with _ | ⟨r0, m0s⟩
        · simp at hm0s; omega
        · exact (hq.2 (r0 :: m0s) (by simp)).2 r0 (by simp)
    constructor
    · simp [t3add, List.length_zipWith, hq.1, hatt.1]
    · intro c hc
      obtain ⟨mq, hmq, ma, hma, rfl⟩ := exists_of_mem_zipWith hc
      constructor
      · simp [t2add, List.length_zipWith, (hq.2 mq hmq).1, (hatt.2 ma hma).1]
      · intro r hr
        obtain ⟨rq, hrq, ra, hra, rfl⟩ := exists_of_mem_zipWith hr
        have hdq : t3dim2 q = h := hd2 mq hmq rq hrq
        have hral : ra.length = t3dim2 q := (hatt.2 ma hma).2 ra hra
        simp [vadd, List.length_zipWith, (hq.2 mq hmq).2 rq hrq, hral, hdq]

theorem compute_update_rule_length (sm : SelfModifyModule) (hid : Tensor3)
    (st : SelfModifyState) (hms : st.meta_state.length = hid.length) :
    (sm.compute_update_rule hid st).length = hid.length := by
  unfold SelfModifyModule.compute_update_rule
  cases hE : sm.config.enabled with
  | false => simp [hE, zeros2, t3dim0]
  | true =>
    simp only [hE, Bool.not_true, Bool.false_eq_true, if_false]
    simp [t2add, t2scale, Linear.forward2, List.length_zipWith, hms]

/-- Shape preservation of `apply_weight_modification` for a `[b,s,h]` hidden
tensor and a meta-state with one row per batch element, provided the
normalization is length-preserving and the output projection has width `h`. -/
theorem apply_weight_modification_shape (sm : SelfModifyModule) (hid : Tensor3)
    (ms : Tensor2) {b s h : Nat}
    (hnorm : ∀ u, (sm.norm u).length = u.length)
    (hout : sm.weight_mod_network.output_proj.bias.length = h)
    (hh : hasShape3 hid b s h) (hms : ms.length = b) :
    hasShape3 (sm.apply_weight_modification hid ms) b s h := by
  unfold SelfModifyModule.apply_weight_modification
  cases hE : sm.config.enabled with
  | false => simpa [hE] using hh
  | true =>
    simp only [hE, Bool.not_true, Bool.false_eq_true, if_false]
    apply mapNorm_shape sm.norm hnorm
    apply t3add_shape hh
    apply t3scale_shape
    have hb : t3dim0 hid = b := hh.1
    rcases Nat.eq_zero_or_pos b with hb0 | hb0
    · have hnil : hid = [] := by
        rcases hid with _ | ⟨m0, hs⟩
        · rfl
        · exfalso; simp [t3dim0, hb0] at hb
      subst hnil
      subst hb0
      exact ⟨by simp [chunkRows, t3dim0], by simp [chunkRows, t3dim0]⟩
    · have hs1 : t3dim1 hid = s := by
        rcases hid with _ | ⟨m0, hs⟩
        · simp [t3dim0] at hb; omega
        · exact (hh.2 m0 (by simp)).1
      rw [hb, hs1]
      apply chunkRows_shape
      · -- flat length = b * s
        have hme : ((ms.map (fun r => List.replicate s r)).flatten).length
            = b * s := by
          rw [List.length_flatten]
          have hrep : (ms.map (fun r => List.replicate s r)).map List.length
              = List.replicate b s := by
            rw [List.map_map]
            have h1 : ∀ x ∈ ms.map (List.length ∘ fun r => List.replicate s r),
                x = s := by
              intro x hx
              obtain ⟨r, hr, rfl⟩ := List.mem_map.mp hx
              simp [Function.comp]
            have h2 := List.eq_replicate_of_mem h1
            simpa [hms] using h2
          rw [hrep, List.sum_replicate, smul_eq_mul]
        have hfl : (hid.flatten).length = b * s := flatten_length_of_shape hh
        simp only [List.length_map, t2add, List.length_zipWith, hfl, hme]
        omega
      · -- flat rows have length h
        intro r hr
        obtain ⟨r0, hr0, rfl⟩ := List.mem_map.mp hr
        rw [forwardRow_length]
        exact hout

theorem innerLoopT_shape (sm? : Option SelfModifyModule) (e : Tensor3 → Tensor3)
    (idx : Nat) {b s h : Nat}
    (hwf : ∀ sm ∈ sm?, (∀ u, (sm.norm u).length = u.length) ∧
      sm.weight_mod_network.output_proj.bias.length = h)
    (he : ∀ u, hasShape3 u b s h → hasShape3 (e u) b s h) :
    ∀ (t : Nat) (ls po : Tensor3) (st : Option SelfModifyState) (tr : List Nat),
      hasShape3 ls b s h → hasShape3 po b s h →
      (∀ s0 ∈ st, s0.meta_state.length = b) →
      hasShape3 (HopeModel.innerLoopT sm? e idx t ls po st tr).1 b s h ∧
      (∀ s1 ∈ (HopeModel.innerLoopT sm? e idx t ls po st tr).2.1,
        s1.meta_state.length = b) := by
  intro t
  induction t with
  | zero => intro ls po st tr hls hpo hst; exact ⟨hls, hst⟩
  | succ t ih =>
    intro ls po st tr hls hpo hst
    rcases sm? with _ | sm
    · simp only [HopeModel.innerLoopT]
      exact ih _ po st _ (he _ (t3add_shape hls hpo)) hpo hst
    · rcases st with _ | s0
      · simp only [HopeModel.innerLoopT]
        exact ih _ po none _ (he _ (t3add_shape hls hpo)) hpo hst
      · simp only [HopeModel.innerLoopT]
        have henc := he _ (t3add_shape hls hpo)
        obtain ⟨hn, ho⟩ := hwf sm (by simp)
        have hmlen : (sm.compute_update_rule (e (t3add ls po)) s0).length = b := by
          rw [compute_update_rule_length sm (e (t3add ls po)) s0
            (by rw [hst s0 (by simp), henc.1])]
          exact henc.1
        apply ih
        · exact apply_weight_modification_shape sm _ _ hn ho henc hmlen
        · exact hpo
        · intro s1 hs1
          rw [Option.mem_def, Option.some_inj] at hs1
          rw [← hs1]
          exact hmlen

theorem levelLoopT_shape (sm? : Option SelfModifyModule) {b s h : Nat}
    (hwf : ∀ sm ∈ sm?, (∀ u, (sm.norm u).length = u.length) ∧
      sm.weight_mod_network.output_proj.bias.length = h) :
    ∀ (ps : List ((Tensor3 → Tensor3) × Nat)) (i : Nat) (lss : List Tensor3)
      (po : Tensor3) (st : Option SelfModifyState) (tr : List Nat),
      (∀ p ∈ ps, ∀ u, hasShape3 u b s h → hasShape3 (p.1 u) b s h) →
      i + ps.length ≤ lss.length →
      (∀ ls ∈ lss, hasShape3 ls b s h) → hasShape3 po b s h →
      (∀ s0 ∈ st, s0.meta_state.length = b) →
      (HopeModel.levelLoopT sm? ps i lss po st tr).1.length = lss.length ∧
      (∀ ls ∈ (HopeModel.levelLoopT sm? ps i lss po st tr).1,
        hasShape3 ls b s h) ∧
      hasShape3 (HopeModel.levelLoopT sm? ps i lss po st tr).2.1 b s h := by
  intro ps
  induction ps with
  | nil => intro i lss po st tr _ _ hls hpo _; exact ⟨rfl, hls, hpo⟩
  | cons p rest ih =>
    obtain ⟨e, t⟩ := p
    intro i lss po st tr hpe hbound hls hpo hst
    simp only [HopeModel.levelLoopT]
    have hi : i < lss.length := by
      simp only [List.length_cons] at hbound; omega
    have hcur : hasShape3 (lss.getD i []) b s h := by
      have hmem : lss.getD i [] ∈ lss := by
        rw [List.getD_eq_getElem lss [] hi]
        exact List.getElem_mem _
      exact hls _ hmem
    have hinner := innerLoopT_shape sm? e i hwf
      (fun u hu => hpe (e, t) (by simp) u hu) t (lss.getD i []) po st tr
      hcur hpo hst
    have hrec := ih (i + 1)
      (lss.set i (HopeModel.innerLoopT sm? e i t (lss.getD i []) po st tr).1)
      (HopeModel.innerLoopT sm? e i t (lss.getD i []) po st tr).1
      (HopeModel.innerLoopT sm? e i t (lss.getD i []) po st tr).2.1
      (HopeModel.innerLoopT sm? e i t (lss.getD i []) po st tr).2.2
      (fun p hp => hpe p (by simp [hp]))
      (by simp only [List.length_set, List.length_cons] at hbound ⊢; omega)
      (by
        intro ls hlsm
        rcases List.mem_or_eq_of_mem_set hlsm with hmem | heq
        · exact hls _ hmem
        · rw [heq]; exact hinner.1)
      hinner.1 hinner.2
    refine ⟨?_, hrec.2.1, hrec.2.2⟩
    rw [hrec.1, List.length_set]

theorem head_map_shape (head : Linear) {b s h v : Nat}
    (hhead : head.bias.length = v) (po : Tensor3) (hpo : hasShape3 po b s h) :
    hasShape3 (po.map head.forward2) b s v := by
  constructor
  · simp [hpo.1]
  · intro mm hmm
    obtain ⟨mat, hmat, rfl⟩ := List.mem_map.mp hmm
    constructor
    · simp [Linear.forward2, (hpo.2 mat hmat).1]
    · intro r hr
      obtain ⟨r0, hr0, rfl⟩ := List.mem_map.mp hr
      rw [forwardRow_length]
      exact hhead

/-- C1: for every forward call on a well-formed model and carry, the new
carry's `step_count` is the old one plus exactly 1, logits have shape
`[batch, seq, vocab]` (`v` is the head's output width, `vocab_size` at
construction), the returned hidden states have shape `[batch, seq, hidden]`,
and every carried level state keeps shape `[batch, seq, hidden]`. -/
theorem forward_contract (m : HopeModel) (tokens : List (List Nat))
    (carry : HopeCarry) {b s h v : Nat}
    (htl : tokens.length = b) (hts : ∀ r ∈ tokens, r.length = s)
    (htv : ∀ r ∈ tokens, ∀ tk ∈ r, tk < m.token_embed.length)
    (hte : ∀ row ∈ m.token_embed, row.length = h)
    (hpes : s ≤ m.pos_embed.length)
    (hpe : ∀ row ∈ m.pos_embed, row.length = h)
    (hhead : m.head.bias.length = v)
    (henc : ∀ e ∈ m.level_encoders, ∀ u, hasShape3 u b s h →
      hasShape3 (e u) b s h)
    (hnl : m.level_encoders.length ≤ carry.level_states.length)
    (hls : ∀ ls ∈ carry.level_states, hasShape3 ls b s h)
    (hmemst : ∀ cms ∈ carry.continuum_memory, memStateShaped cms b s h)
    (hsmwf : ∀ sm ∈ m.self_modify, (∀ u, (sm.norm u).length = u.length) ∧
      sm.weight_mod_network.output_proj.bias.length = h)
    (hsmst : ∀ s0 ∈ carry.self_modify, s0.meta_state.length = b) :
    (HopeModel.forward m tokens carry).1.step_count = carry.step_count + 1 ∧
    hasShape3 (HopeModel.forward m tokens carry).2.logits b s v ∧
    hasShape3 (HopeModel.forward m tokens carry).2.hidden_states b s h ∧
    (HopeModel.forward m tokens carry).1.level_states.length =
      carry.level_states.length ∧
    (∀ ls ∈ (HopeModel.forward m tokens carry).1.level_states,
      hasShape3 ls b s h) := by
  have hemb : hasShape3 (tokens.map (fun row => row.map (fun tk =>
      vscale (m.token_embed.getD tk []) m.embed_scale))) b s h := by
    constructor
    · simp [htl]
    · intro mm hmm
      obtain ⟨row, hrow, rfl⟩ := List.mem_map.mp hmm
      constructor
      · simp [hts row hrow]
      · intro r hr
        obtain ⟨tk, htk, rfl⟩ := List.mem_map.mp hr
        simp only [vscale, List.length_map]
        exact getD_length_of_rows hte (htv row hrow tk htk)
  have hpos : hasShape3 (List.replicate tokens.length
      ((List.range (tokens.headD []).length).map
        (fun p => m.pos_embed.getD p []))) b s h := by
    constructor
    · simp [htl]
    · intro mm hmm
      obtain ⟨hne, rfl⟩ := List.mem_replicate.mp hmm
      have hseq : (tokens.headD []).length = s := by
        rcases tokens with _ | ⟨r0, rs⟩
        · simp at hne
        · exact hts r0 (by simp)
      constructor
      · simp only [List.length_map, List.length_range]
        exact hseq
      · intro r hr
        obtain ⟨p, hp, rfl⟩ := List.mem_map.mp hr
        have hps : p < s := by
          rw [← hseq]; exact List.mem_range.mp hp
        exact getD_length_of_rows hpe (by omega)
  have hhid0 := t3add_shape hemb hpos
  have tail : ∀ (hid : Tensor3), hasShape3 hid b s h →
      (HopeModel.levelLoopT m.self_modify
        (m.level_encoders.zip m.config.level_timescales) 0
        carry.level_states hid carry.self_modify []).1.length =
          carry.level_states.length ∧
      (∀ ls ∈ (HopeModel.levelLoopT m.self_modify
        (m.level_encoders.zip m.config.level_timescales) 0
        carry.level_states hid carry.self_modify []).1, hasShape3 ls b s h) ∧
      hasShape3 (HopeModel.levelLoopT m.self_modify
        (m.level_encoders.zip m.config.level_timescales) 0
        carry.level_states hid carry.self_modify []).2.1 b s h := by
    intro hid hhid
    apply levelLoopT_shape m.self_modify hsmwf
    · intro p hp u hu
      obtain ⟨pe, pt⟩ := p
      exact henc pe (List.of_mem_zip hp).1 u hu
    · have hz : (m.level_encoders.zip m.config.level_timescales).length =
          min m.level_encoders.length m.config.level_timescales.length :=
        List.length_zip _ _
      omega
    · exact hls
    · exact hhid
    · exact hsmst
  rcases hc1 : m.continuum_memory with _ | cm <;>
    rcases hc2 : carry.continuum_memory with _ | cms <;>
    unfold HopeModel.forward HopeModel.forwardT <;>
    rw [hc1, hc2]
  case none.none =>
    have hT := tail _ hhid0
    exact ⟨rfl, head_map_shape m.head hhead _ hT.2.2, hT.2.2, hT.1, hT.2.1⟩
  case none.some =>
    have hT := tail _ hhid0
    exact ⟨rfl, head_map_shape m.head hhead _ hT.2.2, hT.2.2, hT.1, hT.2.1⟩
  case some.none =>
    have hT := tail _ hhid0
    exact ⟨rfl, head_map_shape m.head hhead _ hT.2.2, hT.2.2, hT.1, hT.2.1⟩
  case some.some =>
    have hret := retrieve_shape cm cms _ (hmemst cms (by simp [hc2])) hhid0
    have hT := tail _ hret
    exact ⟨rfl, head_map_shape m.head hhead _ hT.2.2, hT.2.2, hT.1, hT.2.1⟩

/-- The spec scenario config: `hidden_size=4, vocab_size=10, seq_len=3,
num_heads=1, num_layers=1, num_levels=1, level_timescales=[1]`, all auxiliary
modules disabled. -/
def hopeCfg1 : HopeConfig :=
  { hidden_size := 4, vocab_size := 10, seq_len := 3, num_heads := 1,
    num_layers := 1, ff_multiplier := 4, dropout := 1/10, num_levels := 1,
    level_timescales := [1], continuum_mem := cmCfgOff,
    self_modify := smCfgOff, deep_optimizer := optCfgOff }

/-- The spec scenario model: zero embedding/head weights, one identity
encoder (a shape-preserving engine encoder), all auxiliary modules absent. -/
def hopeModel1 : HopeModel :=
  { config := hopeCfg1,
    token_embed := List.replicate 10 (List.replicate 4 0),
    pos_embed := List.replicate 3 (List.replicate 4 0),
    level_encoders := [id], continuum_memory := none, self_modify := none,
    head := ⟨List.replicate 4 (List.replicate 10 0), List.replicate 10 0⟩,
    embed_scale := 1/2 }

/-- Witness for C1: forward on `tokens=[[1,2,3]]` (batch 1) returns logits of
shape `[1,3,10]`, leaves `carry.level_states[0]` with shape `[1,3,4]`, and
increments `step_count` from 0 to 1. -/
theorem forward_contract_witness :
    (HopeModel.forward hopeModel1 [[1, 2, 3]]
      (hopeModel1.initial_carry 1)).1.step_count = 0 + 1 ∧
    hasShape3 (HopeModel.forward hopeModel1 [[1, 2, 3]]
      (hopeModel1.initial_carry 1)).2.logits 1 3 10 ∧
    hasShape3 ((HopeModel.forward hopeModel1 [[1, 2, 3]]
      (hopeModel1.initial_carry 1)).1.level_states.getD 0 []) 1 3 4 := by
  have h := @forward_contract hopeModel1 [[1, 2, 3]] (hopeModel1.initial_carry 1)
    1 3 4 10
    rfl (by decide) (by decide) (by decide) (by decide) (by decide) rfl
    (by
      intro e he u hu
      have he' : e = id := by simpa [hopeModel1] using he
      rw [he']
      exact hu)
    (by decide) (by decide)
    (by intro x hx; simp [HopeModel.initial_carry, hopeModel1] at hx)
    (by intro x hx; simp [hopeModel1] at hx)
    (by intro x hx; simp [HopeModel.initial_carry, hopeModel1] at hx)
  refine ⟨h.1, h.2.1, ?_⟩
  have hlen : (HopeModel.forward hopeModel1 [[1, 2, 3]]
      (hopeModel1.initial_carry 1)).1.level_states.length = 1 := by
    rw [h.2.2.2.1]
    decide
  have hmem : (HopeModel.forward hopeModel1 [[1, 2, 3]]
      (hopeModel1.initial_carry 1)).1.level_states.getD 0 [] ∈
      (HopeModel.forward hopeModel1 [[1, 2, 3]]
        (hopeModel1.initial_carry 1)).1.level_states := by
    rw [List.getD_eq_getElem _ [] (by omega)]
    exact List.getElem_mem _
  exact h.2.2.2.2 _ hmem

end Hope
